import Mathlib

/-!
Verification of the character-level n-gram hangman notebook
(`Language_Modelling.ipynb`).

The Python code is shallowly embedded: Python strings become `String`
(for the model symbols) or `List Char` (for the game), `dict`s and
Counters become association lists, `float` arithmetic is idealised as
`ℚ`, and in-place mutation (of the lambda dictionary and of the
`defaultdict` count tables) is made explicit by returning the updated
value.  A call that would raise in Python is modelled with `Option`
(`none` = the exception propagates).
-/

/-- A Python string used as a model symbol: a lowercase letter such as
`"a"`, the blank `"_"`, or a sentinel such as `"<s1>"`. -/
abbrev PySym := String

/-- A Python dict key as used by the n-gram tables: either a bare string
(the order-2 table is keyed by single symbols) or a tuple of symbols
(orders 3..5).  A bare string never equals a tuple, and tuples are equal
iff componentwise equal, exactly as in Python. -/
inductive PyKey where
  | str : PySym → PyKey
  | tup : List PySym → PyKey
deriving DecidableEq, Repr

/-- `collections.Counter` over symbols: an association list in insertion
order.  Reading a missing key yields 0 and does not insert. -/
abbrev PyCounter := List (PySym × ℕ)

/-- `counter[s]` for a `PyCounter` (0 when missing, no mutation). -/
def counterGet : PyCounter → PySym → ℕ
  | [], _ => 0
  | (s', c) :: rest, s => if s' = s then c else counterGet rest s

/-- `sum(counter.values())`. -/
def counterTotal (c : PyCounter) : ℕ := (c.map Prod.snd).sum

/-- `counter[s] += 1`: update in place, or append a fresh key. -/
def counterInc : PyCounter → PySym → PyCounter
  | [], s => [(s, 1)]
  | (s', c) :: rest, s =>
      if s' = s then (s', c + 1) :: rest else (s', c) :: counterInc rest s

/-- `defaultdict(PyCounter)`: an association list from keys to counters,
in insertion order. -/
abbrev PyTable := List (PyKey × PyCounter)

/-- Pure lookup with the empty counter as default (no mutation). -/
def ddLookupD : PyTable → PyKey → PyCounter
  | [], _ => []
  | (k', c) :: rest, k => if k' = k then c else ddLookupD rest k

/-- Whether a key is present in the table. -/
def ddMem (t : PyTable) (k : PyKey) : Bool :=
  t.any (fun p => decide (p.1 = k))

/-- Reading `table[k]` on a `defaultdict(PyCounter)`: returns the counter
and the table after the read — Python auto-inserts an empty counter
(at the end, in insertion order) when the key is missing. -/
def ddGet (t : PyTable) (k : PyKey) : PyCounter × PyTable :=
  if ddMem t k then (ddLookupD t k, t) else ([], t ++ [(k, [])])

/-- `table[k][s] += 1` on a `defaultdict(PyCounter)`. -/
def tableInc : PyTable → PyKey → PySym → PyTable
  | [], k, s => [(k, counterInc [] s)]
  | (k', c) :: rest, k, s =>
      if k' = k then (k', counterInc c s) :: rest
      else (k', c) :: tableInc rest k s

/-- The count `table[k][s]` as the engine observes it. -/
def tableCount (t : PyTable) (k : PyKey) (s : PySym) : ℕ :=
  counterGet (ddLookupD t k) s

/-- The total `sum(table[k].values())` as the engine observes it. -/
def tableTotal (t : PyTable) (k : PyKey) : ℕ :=
  counterTotal (ddLookupD t k)

/-- The `lambdas` dictionary of interpolation weights, with one field per
order 0..5 (the code only ever touches orders 0..5 since `n ≤ 5`). -/
structure Lambdas where
  l0 : ℚ
  l1 : ℚ
  l2 : ℚ
  l3 : ℚ
  l4 : ℚ
  l5 : ℚ
deriving DecidableEq, Repr

/-- `lambdas[k]` as a function of the order. -/
def lamFun (lam : Lambdas) : ℕ → ℚ
  | 0 => lam.l0
  | 1 => lam.l1
  | 2 => lam.l2
  | 3 => lam.l3
  | 4 => lam.l4
  | 5 => lam.l5
  | _ => 0

/-- `sum(lambdas.values())` for a configuration holding orders 0..n. -/
def lamSum (lam : Lambdas) (n : ℕ) : ℚ :=
  ((List.range (n + 1)).map (lamFun lam)).sum

/-- `str.lower()` on one symbol (characterwise, so that kernel
evaluation works). -/
def pyLower (s : PySym) : PySym := String.mk (s.data.map Char.toLower)

/-- The leading sentinels `["<s1>", ..., "<s(n-1)>"]` built by the
`while start_index < n` loop of `convert_word`. -/
def startSentinels (n : ℕ) : List PySym :=
  (List.range (n - 1)).map (fun i => "<s" ++ toString (i + 1) ++ ">")

/-- The trailing sentinels `["</s(n-1)>", ..., "</s1>"]` built by the
`while end_index > 1` loop of `convert_word`. -/
def endSentinels (n : ℕ) : List PySym :=
  (List.range (n - 1)).map (fun i => "</s" ++ toString (n - 1 - i) ++ ">")

/-- `convert_word(word, n)`: pad with order-specific sentinels and
lowercase the letters. -/
def convert_word (word : List PySym) (n : ℕ) : List PySym :=
  startSentinels n ++ word.map pyLower ++ endSentinels n

/-- `get_unigram_counts(words)`: character frequencies over all
training words. -/
def get_unigram_counts (words : List (List PySym)) : PyCounter :=
  words.foldl (fun acc w => w.foldl counterInc acc) []

/-- The list of n-grams `[word[i:i+n] for i in range(len(word)-(n-1))]`. -/
def gramList (w : List PySym) (n : ℕ) : List (List PySym) :=
  (List.range (w.length - (n - 1))).map (fun i => (w.drop i).take n)

/-- Recording one n-gram: the code branches on `n` being 2..5 and keys
the table by the first `n-1` symbols of the gram (a bare symbol for
`n = 2`, a tuple otherwise); any other `n` records nothing. -/
def recordGram (t : PyTable) (g : List PySym) (n : ℕ) : PyTable :=
  if n = 2 then tableInc t (PyKey.str (g.getD 0 "")) (g.getD 1 "")
  else if n = 3 then tableInc t (PyKey.tup [g.getD 0 "", g.getD 1 ""]) (g.getD 2 "")
  else if n = 4 then
    tableInc t (PyKey.tup [g.getD 0 "", g.getD 1 "", g.getD 2 ""]) (g.getD 3 "")
  else if n = 5 then
    tableInc t (PyKey.tup [g.getD 0 "", g.getD 1 "", g.getD 2 "", g.getD 3 ""]) (g.getD 4 "")
  else t

/-- `get_ngram_counts(words, n)`. -/
def get_ngram_counts (words : List (List PySym)) (n : ℕ) : PyTable :=
  words.foldl
    (fun acc word =>
      let w := convert_word word n
      if n ≤ w.length then (gramList w n).foldl (fun acc2 g => recordGram acc2 g n) acc
      else acc)
    []

/-- The `ngram_counts` dictionary `{1: unigram_counts, ..., 5: fivegram_counts}`
holding the five trained tables.  Order 1 is a plain `PyCounter` (reads never
mutate it); orders 2..5 are `defaultdict`s. -/
structure NGTables where
  t1 : PyCounter
  t2 : PyTable
  t3 : PyTable
  t4 : PyTable
  t5 : PyTable
deriving DecidableEq, Repr

/-- Building all five tables from a training word list, as the training
cells of the notebook do. -/
def buildTabs (words : List (List PySym)) : NGTables :=
  ⟨get_unigram_counts words, get_ngram_counts words 2, get_ngram_counts words 3,
    get_ngram_counts words 4, get_ngram_counts words 5⟩

/-- The `conditional` tuple built at the top of `get_ngram_prob`: a real
tuple for contexts of two or more symbols, the bare first symbol for a
one-symbol context, and the empty tuple for an empty context. -/
def pyConditional (context : List PySym) : PyKey :=
  if context.length > 1 then PyKey.tup context
  else if context.length = 1 then PyKey.str context.headI
  else PyKey.tup []

/-- The `if (n>4)` block of `get_ngram_prob`: score the fivegram.  The
`defaultdict` read may insert an empty counter at `cond` into table 5.
If the context total is zero the order contributes `0` and
`lambdas[4] += lambdas[5]`; otherwise `count*lambdas[5]/total` is added. -/
def order5Step (letter : PySym) (cond : PyKey) (prob : ℚ) (lam : Lambdas)
    (tabs : NGTables) : ℚ × Lambdas × NGTables :=
  let c5 := (ddGet tabs.t5 cond).1
  let tabs' : NGTables := { tabs with t5 := (ddGet tabs.t5 cond).2 }
  if counterTotal c5 ≠ 0 then
    (prob + (counterGet c5 letter : ℚ) * lam.l5 / (counterTotal c5 : ℚ), lam, tabs')
  else
    (prob + 0, { lam with l4 := lam.l4 + lam.l5 }, tabs')

/-- The `if (n>3)` block of `get_ngram_prob`: score the fourgram. -/
def order4Step (letter : PySym) (cond : PyKey) (prob : ℚ) (lam : Lambdas)
    (tabs : NGTables) : ℚ × Lambdas × NGTables :=
  let c4 := (ddGet tabs.t4 cond).1
  let tabs' : NGTables := { tabs with t4 := (ddGet tabs.t4 cond).2 }
  if counterTotal c4 ≠ 0 then
    (prob + (counterGet c4 letter : ℚ) * lam.l4 / (counterTotal c4 : ℚ), lam, tabs')
  else
    (prob + 0, { lam with l3 := lam.l3 + lam.l4 }, tabs')

/-- The `if (n>2)` block of `get_ngram_prob`: score the trigram. -/
def order3Step (letter : PySym) (cond : PyKey) (prob : ℚ) (lam : Lambdas)
    (tabs : NGTables) : ℚ × Lambdas × NGTables :=
  let c3 := (ddGet tabs.t3 cond).1
  let tabs' : NGTables := { tabs with t3 := (ddGet tabs.t3 cond).2 }
  if counterTotal c3 ≠ 0 then
    (prob + (counterGet c3 letter : ℚ) * lam.l3 / (counterTotal c3 : ℚ), lam, tabs')
  else
    (prob + 0, { lam with l2 := lam.l2 + lam.l3 }, tabs')

/-- The `if (n>1)` block of `get_ngram_prob`: score the bigram. -/
def order2Step (letter : PySym) (cond : PyKey) (prob : ℚ) (lam : Lambdas)
    (tabs : NGTables) : ℚ × Lambdas × NGTables :=
  let c2 := (ddGet tabs.t2 cond).1
  let tabs' : NGTables := { tabs with t2 := (ddGet tabs.t2 cond).2 }
  if counterTotal c2 ≠ 0 then
    (prob + (counterGet c2 letter : ℚ) * lam.l2 / (counterTotal c2 : ℚ), lam, tabs')
  else
    (prob + 0, { lam with l1 := lam.l1 + lam.l2 }, tabs')

/-- The guarded `if (n>4)` block as a state transformer. -/
def stage5 (letter : PySym) (cond : PyKey) (n : ℕ) (st : ℚ × Lambdas × NGTables) :
    ℚ × Lambdas × NGTables :=
  if n > 4 then order5Step letter cond st.1 st.2.1 st.2.2 else st

/-- The guarded `if (n>3)` block as a state transformer. -/
def stage4 (letter : PySym) (cond : PyKey) (n : ℕ) (st : ℚ × Lambdas × NGTables) :
    ℚ × Lambdas × NGTables :=
  if n > 3 then order4Step letter cond st.1 st.2.1 st.2.2 else st

/-- The guarded `if (n>2)` block as a state transformer. -/
def stage3 (letter : PySym) (cond : PyKey) (n : ℕ) (st : ℚ × Lambdas × NGTables) :
    ℚ × Lambdas × NGTables :=
  if n > 2 then order3Step letter cond st.1 st.2.1 st.2.2 else st

/-- The guarded `if (n>1)` block as a state transformer. -/
def stage2 (letter : PySym) (cond : PyKey) (n : ℕ) (st : ℚ × Lambdas × NGTables) :
    ℚ × Lambdas × NGTables :=
  if n > 1 then order2Step letter cond st.1 st.2.1 st.2.2 else st

/-- The `if (n>0)` unigram block of `get_ngram_prob`.  With a non-empty
unigram table it adds `count*lambdas[1]/total` (un-smoothed); with an
empty table the code runs `lambdas[0] += lambdas[1]` and then raises
`TypeError` at `vocab_size = len(unigram_total_count)` (`len` of a
float), modelled as a `none` probability. -/
def uniStage (letter : PySym) (n : ℕ) (st : ℚ × Lambdas × NGTables) :
    Option ℚ × Lambdas × NGTables :=
  if n > 0 then
    if counterTotal st.2.2.t1 ≠ 0 then
      (some (st.1 + (counterGet st.2.2.t1 letter : ℚ) * st.2.1.l1 /
          (counterTotal st.2.2.t1 : ℚ)),
        st.2.1, st.2.2)
    else (none, { st.2.1 with l0 := st.2.1.l0 + st.2.1.l1 }, st.2.2)
  else (some st.1, st.2.1, st.2.2)

/-- The body of `get_ngram_prob` up to and including the accumulation of
the unigram term — everything before the final `math.log`: the four
guarded order blocks run top order first on the state
(prob, lambdas, tables) started at `(0, lambdas, tabs)`, then the
unigram block.  The returned rational is the accumulated probability
mass `prob`; it is `none` exactly on the empty-unigram `TypeError`
path.  All the blocks use the one `conditional` key built from the
untruncated context. -/
def get_ngram_prob_acc (letter : PySym) (context : List PySym) (n : ℕ)
    (lambdas : Lambdas) (tabs : NGTables) : Option ℚ × Lambdas × NGTables :=
  let conditional := pyConditional context
  uniStage letter n
    (stage2 letter conditional n
      (stage3 letter conditional n
        (stage4 letter conditional n
          (stage5 letter conditional n (0, lambdas, tabs)))))

/-- `get_ngram_prob(letter, context, n, lambdas)`: the accumulated mass
followed by `math.log`.  The logarithm itself is abstracted as a
parameter `log : ℚ → ℚ` (the real-valued transcendental lies outside the
rational embedding; no claim depends on its values).  The result is
`none` when Python would raise: the `TypeError` of the empty-unigram
branch, or the `ValueError` of `math.log` on a non-positive argument. -/
def get_ngram_prob (log : ℚ → ℚ) (letter : PySym) (context : List PySym) (n : ℕ)
    (lambdas : Lambdas) (tabs : NGTables) : Option ℚ × Lambdas × NGTables :=
  match get_ngram_prob_acc letter context n lambdas tabs with
  | (none, lam', tabs') => (none, lam', tabs')
  | (some p, lam', tabs') => (if 0 < p then some (log p) else none, lam', tabs')

/-- `string.ascii_lowercase`, as the list of one-letter symbols. -/
def asciiLow : List PySym :=
  ["a", "b", "c", "d", "e", "f", "g", "h", "i", "j", "k", "l", "m",
   "n", "o", "p", "q", "r", "s", "t", "u", "v", "w", "x", "y", "z"]

/-- Python list indexing `word[j]`, including the negative-index wrap
that the context-walk of `ngram_guesser` can perform at `j = -1`. -/
def pyGet (w : List PySym) (j : ℤ) : PySym :=
  if 0 ≤ j then w.getD j.toNat ""
  else w.getD (w.length - (-j).toNat) ""

/-- The `while word[j]!="_" and j>=0 and context_len<n` walk of
`ngram_guesser`, collecting the left context of a blank.  The budget
argument is `n - context_len`; `context.insert(0, word[j])` is the
prepend. -/
def ctxWalk (word : List PySym) : ℤ → ℕ → List PySym → List PySym
  | _, 0, ctx => ctx
  | j, b + 1, ctx =>
      if pyGet word j ≠ "_" ∧ 0 ≤ j then ctxWalk word (j - 1) b (pyGet word j :: ctx)
      else ctx

/-- The left context `ngram_guesser` extracts for a blank at position
`i` of the (order-2 padded) word. -/
def extractContext (word : List PySym) (i : ℕ) (n : ℕ) : List PySym :=
  ctxWalk word ((i : ℤ) - 1) (n - 1) []

/-- `letter_probs[letter] += p` on a `defaultdict(float)`. -/
def addProb : List (PySym × ℚ) → PySym → ℚ → List (PySym × ℚ)
  | [], s, p => [(s, 0 + p)]
  | (s', v) :: rest, s, p =>
      if s' = s then (s', v + p) :: rest else (s', v) :: addProb rest s p

/-- Helper for Python `max(d, key=d.get)`: keep the first key whose
value is strictly greater than the best so far. -/
def pyMaxAux (s : PySym) (v : ℚ) : List (PySym × ℚ) → PySym
  | [] => s
  | (s', v') :: rest => if v' > v then pyMaxAux s' v' rest else pyMaxAux s v rest

/-- `max(letter_probs, key=letter_probs.get)`; `none` is the
`ValueError` Python raises on an empty mapping. -/
def pyMaxByVal : List (PySym × ℚ) → Option PySym
  | [] => none
  | (s, v) :: rest => some (pyMaxAux s v rest)

/-- The inner `for letter in letter_available` loop of `ngram_guesser`
at one blank: each call receives `context.copy()` and `lambdas.copy()`,
so the mutated lambda copy coming back from `get_ngram_prob` is
discarded, while the table state threads through.  A `none` first
component is a propagating exception. -/
def scoreLetters (log : ℚ → ℚ) (context : List PySym) (n : ℕ) (lambdas : Lambdas) :
    List PySym → List (PySym × ℚ) → NGTables → Option (List (PySym × ℚ)) × NGTables
  | [], probs, tabs => (some probs, tabs)
  | letter :: rest, probs, tabs =>
      match get_ngram_prob log letter context n lambdas tabs with
      | (none, _, tabs') => (none, tabs')
      | (some p, _, tabs') =>
          scoreLetters log context n lambdas rest (addProb probs letter p) tabs'

/-- The outer `for i in range(len(word))` loop of `ngram_guesser`:
at each blank position extract the context and score every available
letter. -/
def blanksLoop (log : ℚ → ℚ) (word : List PySym) (letters : List PySym) (n : ℕ)
    (lambdas : Lambdas) :
    List ℕ → List (PySym × ℚ) → NGTables → Option (List (PySym × ℚ)) × NGTables
  | [], probs, tabs => (some probs, tabs)
  | i :: rest, probs, tabs =>
      if word.getD i "" = "_" then
        match scoreLetters log (extractContext word i n) n lambdas letters probs tabs with
        | (none, tabs') => (none, tabs')
        | (some probs', tabs') => blanksLoop log word letters n lambdas rest probs' tabs'
      else blanksLoop log word letters n lambdas rest probs tabs

/-- `ngram_guesser(mask, guessed, n=n, lambdas=lambdas)`.  The mask is
padded with `convert_word(mask, 2)` — order 2 regardless of `n`.  The
second component of the result is the caller's lambda dictionary after
the call (the code hands `lambdas.copy()` to every `get_ngram_prob`
call), the third is the table state after all queries.  A `none` letter
is a propagating exception (from `get_ngram_prob`, or `max` on an empty
mapping). -/
def ngram_guesser (log : ℚ → ℚ) (mask : List PySym) (guessed : List PySym) (n : ℕ)
    (lambdas : Lambdas) (tabs : NGTables) : Option PySym × Lambdas × NGTables :=
  let letter_available := asciiLow.filter (fun l => decide (l ∉ guessed))
  let word := convert_word mask 2
  match blanksLoop log word letter_available n lambdas (List.range word.length) [] tabs with
  | (none, tabs') => (none, lambdas, tabs')
  | (some probs, tabs') => (pyMaxByVal probs, lambdas, tabs')

/-- A Python string on the game side, as a list of characters (the game
compares guesses against single characters and substrings, so the guess
type must be a full string, not a character). -/
abbrev PyStr := List Char

/-- Python `guess in secret_word` for strings: contiguous substring test
(the empty string is a substring of everything). -/
def pyInStr (g w : PyStr) : Bool :=
  (List.range (w.length + 1)).any (fun i => decide ((w.drop i).take g.length = g))

/-- The reveal loop `for i, c in enumerate(secret_word): if c == guess:
mask[i] = c`.  The comparison `c == guess` is a one-character string
against the guess string, so only single-character guesses can match. -/
def revealMask (secret : List Char) (mask : List Char) (guess : PyStr) : List Char :=
  List.zipWith (fun c m => if [c] = guess then c else m) secret mask ++
    mask.drop secret.length

/-- One turn of the `hangman` while-loop after the guess is obtained:
a repeated guess is a mistake; a fresh guess is added to `guessed` and
either reveals its occurrences (if it occurs in the secret word) or
counts as a mistake.  Returns (mask, guessed, mistakes). -/
def hangmanBody (secret : List Char) (guess : PyStr) (mask : List Char)
    (guessed : List PyStr) (mistakes : ℕ) : List Char × List PyStr × ℕ :=
  if guess ∈ guessed then (mask, guessed, mistakes + 1)
  else if pyInStr guess secret then
    (revealMask secret mask guess, guessed ++ [guess], mistakes)
  else (mask, guessed ++ [guess], mistakes + 1)

/-- The `while mistakes < max_mistakes` loop of `hangman`, with explicit
fuel (`none` = fuel exhausted before the Python loop finished).  After
each turn the loop returns the current mistake count as soon as the mask
has no blank left; leaving the loop returns the mistake count. -/
def hangmanLoop (secret : List Char) (guesser : List Char → List PyStr → PyStr)
    (maxM : ℕ) : ℕ → List Char → List PyStr → ℕ → Option ℕ
  | 0, _, _, _ => none
  | fuel + 1, mask, guessed, mistakes =>
      if mistakes < maxM then
        let st := hangmanBody secret (guesser mask guessed) mask guessed mistakes
        if '_' ∈ st.1 then hangmanLoop secret guesser maxM fuel st.1 st.2.1 st.2.2
        else some st.2.2
      else some mistakes

/-- `hangman(secret_word, guesser, max_mistakes, verbose)` (the chatty
printing has no observable effect and is dropped): lowercase the secret,
start from an all-blank mask, no guesses, zero mistakes. -/
def hangman (fuel : ℕ) (secret_word : List Char)
    (guesser : List Char → List PyStr → PyStr) (maxM : ℕ) : Option ℕ :=
  let s := secret_word.map Char.toLower
  hangmanLoop s guesser maxM fuel (List.replicate s.length '_') [] 0

/-- All contiguous substrings of a word, as a finite set; anything
`pyInStr` accepts lies in here.  Used to bound the number of
non-mistake turns a game can take. -/
def allSubstrings (w : List Char) : Finset (List Char) :=
  ((List.range (w.length + 1)).flatMap (fun i =>
    (List.range (w.length + 1)).map (fun j => (w.drop i).take j))).toFinset

/-- The sequence of orders `[n, n-1, ..., 2]` that the spec's
interpolation algorithm walks. -/
def ordersDesc (n : ℕ) : List ℕ :=
  (List.range (n - 1)).map (fun i => n - i)

/-- Modelled from the spec (§4.2, claim C1 wording): one pass of the
cascading interpolation over a descending list of orders.  The state is
(accumulated probability, weight carried down from unseen higher
orders).  At order `k` the working weight is `w k` plus the carry; a
zero context total contributes nothing and cascades the whole working
weight, a non-zero total contributes `weight * count / total`. -/
def specCascadeAux (cnt tot : ℕ → ℕ) (w : ℕ → ℚ) : List ℕ → ℚ × ℚ → ℚ × ℚ
  | [], st => st
  | k :: ks, st =>
      let wk := w k + st.2
      if tot k ≠ 0 then
        specCascadeAux cnt tot w ks (st.1 + wk * (cnt k : ℚ) / (tot k : ℚ), 0)
      else specCascadeAux cnt tot w ks (st.1, wk)

/-- Modelled from the spec: the cascade run from order `n` down to
order 2, starting with no accumulated probability and no carry.
Returns (probability collected by orders n..2, weight carried into
order 1). -/
def specCascade (cnt tot : ℕ → ℕ) (w : ℕ → ℚ) (n : ℕ) : ℚ × ℚ :=
  specCascadeAux cnt tot w (ordersDesc n) (0, 0)

/-- The count the engine would observe for `letter` after `cond` in the
order-`k` table. -/
def orderCount (tabs : NGTables) (cond : PyKey) (letter : PySym) : ℕ → ℕ
  | 2 => tableCount tabs.t2 cond letter
  | 3 => tableCount tabs.t3 cond letter
  | 4 => tableCount tabs.t4 cond letter
  | 5 => tableCount tabs.t5 cond letter
  | _ => 0

/-- The context total the engine would observe in the order-`k` table. -/
def orderTotal (tabs : NGTables) (cond : PyKey) : ℕ → ℕ
  | 2 => tableTotal tabs.t2 cond
  | 3 => tableTotal tabs.t3 cond
  | 4 => tableTotal tabs.t4 cond
  | 5 => tableTotal tabs.t5 cond
  | _ => 0

/-- The weight actually multiplied into each contributing order 2..n of
one probability computation (zero-total orders contribute nothing and
are skipped), measured on the final lambda dictionary, whose entries at
scoring time are exactly its final entries. -/
def contribSum (lam : Lambdas) (tabs : NGTables) (cond : PyKey) (n : ℕ) : ℚ :=
  ((ordersDesc n).map (fun k => if orderTotal tabs cond k ≠ 0 then lamFun lam k else 0)).sum

/-- The configured weights of the orders strictly between 1 and n. -/
def midWeightSum (lam : Lambdas) (n : ℕ) : ℚ :=
  ((List.range (n - 2)).map (fun i => lamFun lam (2 + i))).sum

/-- The key shapes `get_ngram_counts` produces for order `n`: bare
symbols for order 2, tuples of length `n - 1` for orders 3..5. -/
def keyShapeOK (n : ℕ) (k : PyKey) : Prop :=
  match n, k with
  | 2, PyKey.str _ => True
  | 3, PyKey.tup l => l.length = 2
  | 4, PyKey.tup l => l.length = 3
  | 5, PyKey.tup l => l.length = 4
  | _, _ => False

/-- Observable equality of table states: every lookup any engine query
performs gives the same counter.  (Queries may insert empty counters,
which this relation deliberately ignores; structural equality of
`NGTables` does not.) -/
def tablesObsEq (a b : NGTables) : Prop :=
  a.t1 = b.t1 ∧ (∀ k, ddLookupD a.t2 k = ddLookupD b.t2 k) ∧
    (∀ k, ddLookupD a.t3 k = ddLookupD b.t3 k) ∧
    (∀ k, ddLookupD a.t4 k = ddLookupD b.t4 k) ∧
    (∀ k, ddLookupD a.t5 k = ddLookupD b.t5 k)

/-- The spec's small training scenario: {"cats", "cat", "bat"} (reordered
as the notebook's set would enumerate; order only affects table insertion
order, not any count). -/
def demoWords : List (List PySym) := [["c", "a", "t"], ["c", "a", "t", "s"], ["b", "a", "t"]]

/-- The five tables trained on `demoWords`. -/
def demoTabs : NGTables := buildTabs demoWords

/-- A bigram-model weight configuration summing to 1. -/
def demoLam : Lambdas := ⟨1/100, 9/100, 9/10, 0, 0, 0⟩

/-- A trigram-model weight configuration summing to 1. -/
def demoLam3 : Lambdas := ⟨1/100, 4/100, 5/100, 9/10, 0, 0⟩

/-- A unigram-plus-zerogram configuration with strictly positive
zerogram weight, summing to 1. -/
def demoLamBug : Lambdas := ⟨1/2, 1/2, 0, 0, 0, 0⟩

/-- Tables trained on the single word "aa": the letter "z" has unigram
count 0 there. -/
def demoTabsBug : NGTables := buildTabs [["a", "a"]]

/-- A guess strategy that violates the one-character contract on every
turn. -/
def badGuesser : List Char → List PyStr → PyStr := fun _ _ => ['z', 'z']

/-! ## Basic lemmas about the table model -/

theorem ddLookupD_of_not_mem (t : PyTable) (k : PyKey) (h : ddMem t k = false) :
    ddLookupD t k = [] := by
  induction t with
  | nil => rfl
  | cons p rest ih =>
      rcases p with ⟨k', c⟩
      simp only [ddMem, List.any_cons, Bool.or_eq_false_iff, decide_eq_false_iff_not] at h
      simp only [ddLookupD, if_neg h.1]
      exact ih (by simpa [ddMem] using h.2)

theorem ddGet_fst (t : PyTable) (k : PyKey) : (ddGet t k).1 = ddLookupD t k := by
  unfold ddGet
  by_cases h : ddMem t k
  · simp [h]
  · simp only [Bool.not_eq_true] at h
    simp [h, ddLookupD_of_not_mem t k h]

theorem ddLookupD_append_nil (t : PyTable) (k k' : PyKey) :
    ddLookupD (t ++ [(k, [])]) k' = ddLookupD t k' := by
  induction t with
  | nil =>
      simp only [List.nil_append, ddLookupD]
      split
      · next h => subst h; rfl
      · rfl
  | cons p rest ih =>
      rcases p with ⟨k'', c⟩
      simp only [List.cons_append, ddLookupD]
      split <;> simp [ih]

theorem ddGet_snd_lookup (t : PyTable) (k k' : PyKey) :
    ddLookupD (ddGet t k).2 k' = ddLookupD t k' := by
  unfold ddGet
  by_cases h : ddMem t k
  · simp [h]
  · simp only [Bool.not_eq_true] at h
    simp [h, ddLookupD_append_nil]

/-! ## Game engine: the loop body and its invariants -/

theorem hangmanBody_mistakes_le (secret : List Char) (guess : PyStr) (mask : List Char)
    (guessed : List PyStr) (mistakes : ℕ) :
    (hangmanBody secret guess mask guessed mistakes).2.2 ≤ mistakes + 1 := by
  unfold hangmanBody
  split_ifs <;> simp

theorem hangmanLoop_le (secret : List Char) (guesser : List Char → List PyStr → PyStr)
    (maxM : ℕ) :
    ∀ fuel mask guessed mistakes m, mistakes ≤ maxM →
      hangmanLoop secret guesser maxM fuel mask guessed mistakes = some m → m ≤ maxM := by
  intro fuel
  induction fuel with
  | zero => intro mask guessed mistakes m _ h; exact absurd h (by simp [hangmanLoop])
  | succ fuel ih =>
      intro mask guessed mistakes m hle h
      rw [hangmanLoop] at h
      by_cases hm : mistakes < maxM
      · rw [if_pos hm] at h
        have hb := hangmanBody_mistakes_le secret (guesser mask guessed) mask guessed mistakes
        by_cases hw : '_' ∈ (hangmanBody secret (guesser mask guessed) mask guessed mistakes).1
        · rw [if_pos hw] at h
          exact ih _ _ _ m (by omega) h
        · rw [if_neg hw] at h
          have := Option.some.inj h
          omega
      · rw [if_neg hm] at h
        have := Option.some.inj h
        omega

/-- C7: for every secret word, every guess strategy, and every
`max_mistakes ≥ 1`, whenever `hangman` finishes (any fuel), the mistake
count it returns lies in `[0, max_mistakes]`. -/
theorem hangman_mistakes_in_range (fuel : ℕ) (secret : List Char)
    (guesser : List Char → List PyStr → PyStr) (maxM m : ℕ) (_hmax : 1 ≤ maxM)
    (h : hangman fuel secret guesser maxM = some m) : 0 ≤ m ∧ m ≤ maxM := by
  refine ⟨Nat.zero_le m, ?_⟩
  unfold hangman at h
  exact hangmanLoop_le _ guesser maxM fuel _ [] 0 m (Nat.zero_le maxM) h

theorem hangman_mistakes_in_range_witness :
    (1 ≤ 3 ∧ hangman 10 "cat".toList badGuesser 3 = some 3) ∧
      0 ≤ 3 ∧ 3 ≤ 3 := by
  refine ⟨⟨by decide, by decide⟩, ?_⟩
  exact hangman_mistakes_in_range 10 "cat".toList badGuesser 3 3 (by decide) (by decide)

/-! ## Game engine: termination -/

theorem mem_allSubstrings_of_pyInStr (g w : PyStr) (h : pyInStr g w = true) :
    g ∈ allSubstrings w := by
  unfold pyInStr at h
  rw [List.any_eq_true] at h
  obtain ⟨i, hi, hg⟩ := h
  rw [decide_eq_true_eq] at hg
  unfold allSubstrings
  rw [List.mem_toFinset, List.mem_flatMap]
  refine ⟨i, hi, ?_⟩
  rw [List.mem_map]
  refine ⟨g.length, ?_, hg⟩
  rw [List.mem_range]
  have hlen : ((w.drop i).take g.length).length = g.length := by rw [hg]
  rw [List.length_take, List.length_drop] at hlen
  omega

theorem hangmanLoop_total (secret : List Char) (guesser : List Char → List PyStr → PyStr)
    (maxM : ℕ) :
    ∀ fuel mask guessed mistakes,
      maxM - mistakes + ((allSubstrings secret) \ guessed.toFinset).card < fuel →
      ∃ m, hangmanLoop secret guesser maxM fuel mask guessed mistakes = some m := by
  intro fuel
  induction fuel with
  | zero => intro mask guessed mistakes h; omega
  | succ fuel ih =>
      intro mask guessed mistakes h
      rw [hangmanLoop]
      by_cases hm : mistakes < maxM
      · rw [if_pos hm]
        set guess := guesser mask guessed with hguess
        by_cases hw : '_' ∈ (hangmanBody secret guess mask guessed mistakes).1
        · rw [if_pos hw]
          unfold hangmanBody
          unfold hangmanBody at hw
          by_cases h1 : guess ∈ guessed
          · rw [if_pos h1]
            rw [if_pos h1] at hw
            exact ih mask guessed (mistakes + 1) (by omega)
          · rw [if_neg h1]
            rw [if_neg h1] at hw
            have htf : (guessed ++ [guess]).toFinset = insert guess guessed.toFinset := by
              ext x
              simp [List.toFinset_append, or_comm]
            by_cases h2 : pyInStr guess secret
            · rw [if_pos h2]
              rw [if_pos h2] at hw
              have hmem : guess ∈ allSubstrings secret \ guessed.toFinset := by
                rw [Finset.mem_sdiff]
                exact ⟨mem_allSubstrings_of_pyInStr guess secret h2, by
                  simp [List.mem_toFinset, h1]⟩
              have hcard :
                  (allSubstrings secret \ (guessed ++ [guess]).toFinset).card <
                    (allSubstrings secret \ guessed.toFinset).card := by
                rw [htf]
                have hsub : allSubstrings secret \ insert guess guessed.toFinset =
                    (allSubstrings secret \ guessed.toFinset).erase guess := by
                  ext x
                  simp only [Finset.mem_sdiff, Finset.mem_insert, Finset.mem_erase]
                  tauto
                rw [hsub, Finset.card_erase_of_mem hmem]
                exact Nat.sub_lt (Finset.card_pos.mpr ⟨guess, hmem⟩) Nat.one_pos
              exact ih (revealMask secret mask guess) (guessed ++ [guess]) mistakes (by omega)
            · rw [if_neg h2]
              rw [if_neg h2] at hw
              have hcard :
                  (allSubstrings secret \ (guessed ++ [guess]).toFinset).card ≤
                    (allSubstrings secret \ guessed.toFinset).card := by
                refine Finset.card_le_card ?_
                rw [htf]
                intro x hx
                rw [Finset.mem_sdiff] at hx ⊢
                rcases hx with ⟨hx1, hx2⟩
                rw [Finset.mem_insert] at hx2
                exact ⟨hx1, fun hc => hx2 (Or.inr hc)⟩
              exact ih mask (guessed ++ [guess]) (mistakes + 1) (by omega)
        · rw [if_neg hw]
          exact ⟨_, rfl⟩
      · rw [if_neg hm]
        exact ⟨mistakes, rfl⟩

/-- C8: every game terminates for every secret word, every guess
strategy (an arbitrary function of mask and guessed set) and every
mistake cap: each turn either increments the bounded mistake count or
adds a new element of the finite substring set of the secret to the
guessed set, so fuel `maxM + |substrings| + 1` always suffices. -/
theorem hangman_terminates (secret : List Char)
    (guesser : List Char → List PyStr → PyStr) (maxM : ℕ) (_hmax : 1 ≤ maxM) :
    ∃ m, hangman (maxM + (allSubstrings (secret.map Char.toLower)).card + 1)
        secret guesser maxM = some m := by
  unfold hangman
  refine hangmanLoop_total _ guesser maxM _ _ [] 0 ?_
  simp only [List.toFinset_nil, Finset.sdiff_empty]
  omega

theorem hangman_terminates_witness :
    1 ≤ 3 ∧
      ∃ m, hangman (3 + (allSubstrings ("cat".toList.map Char.toLower)).card + 1)
          "cat".toList badGuesser 3 = some m :=
  ⟨by decide, hangman_terminates "cat".toList badGuesser 3 (by decide)⟩

/-! ## Game engine: handling of contract-violating guesses (C9) -/

theorem revealMask_of_no_match (secret mask : List Char) (guess : PyStr)
    (h : ∀ c : Char, [c] ≠ guess) : revealMask secret mask guess = mask := by
  induction secret generalizing mask with
  | nil => simp [revealMask]
  | cons c cs ih =>
      cases mask with
      | nil => rfl
      | cons m ms =>
          simp only [revealMask, List.zipWith_cons_cons, if_neg (h c), List.drop_succ_cons,
            List.length_cons] at ih ⊢
          exact congrArg (m :: ·) (ih ms)

/-- C9 (counterexample): a strategy that always returns the
two-character guess "zz" does not abort the game: `hangman` on the word
"cat" with cap 1 silently counts the bad guess as a mistake and returns
the normal mistake count 1 — no `InvalidGuessError` exists anywhere in
the game, so the claimed abnormal termination never happens. -/
theorem hangman_bad_guess_no_error :
    (∀ mask guessed, (badGuesser mask guessed).length ≠ 1) ∧
      hangman 10 "cat".toList badGuesser 1 = some 1 :=
  ⟨by intro a b; unfold badGuesser; decide, by decide⟩

/-- C9 (amended): the game never raises on a contract-violating guess.
A guess that is not exactly one character leaves the mask unchanged and
is silently absorbed: it counts as a mistake exactly when it is repeated
or is not a (multi-character) substring of the secret word; a fresh
multi-character substring guess is added to the guessed set with neither
a reveal nor a mistake. -/
theorem hangman_bad_guess_absorbed (secret : List Char) (guess : PyStr)
    (mask : List Char) (guessed : List PyStr) (mistakes : ℕ)
    (hlen : guess.length ≠ 1) :
    hangmanBody secret guess mask guessed mistakes =
      (mask, (if guess ∈ guessed then guessed else guessed ++ [guess]),
        if guess ∉ guessed ∧ pyInStr guess secret then mistakes else mistakes + 1) := by
  have hnm : ∀ c : Char, [c] ≠ guess := by
    intro c hc
    apply hlen
    rw [← hc]
    rfl
  unfold hangmanBody
  by_cases h1 : guess ∈ guessed
  · simp [h1]
  · by_cases h2 : pyInStr guess secret
    · simp [h1, h2, revealMask_of_no_match secret mask guess hnm]
    · simp [h1, h2]

theorem hangman_bad_guess_absorbed_witness :
    ((['z', 'z'] : PyStr).length ≠ 1) ∧
      hangmanBody "cat".toList ['z', 'z'] ['_', '_', '_'] [] 0 =
        (['_', '_', '_'], (if (['z', 'z'] : PyStr) ∈ ([] : List PyStr) then ([] : List PyStr)
            else [] ++ [['z', 'z']]),
          if (['z', 'z'] : PyStr) ∉ ([] : List PyStr) ∧ pyInStr ['z', 'z'] "cat".toList
            then 0 else 0 + 1) :=
  ⟨by decide, hangman_bad_guess_absorbed "cat".toList ['z', 'z'] ['_', '_', '_'] [] 0 (by decide)⟩

/-! ## Characterizations of the engine blocks -/

theorem order5Step_eq (letter : PySym) (cond : PyKey) (p : ℚ) (lam : Lambdas)
    (tabs : NGTables) :
    order5Step letter cond p lam tabs =
      (if tableTotal tabs.t5 cond ≠ 0
          then p + (tableCount tabs.t5 cond letter : ℚ) * lam.l5 / (tableTotal tabs.t5 cond : ℚ)
          else p,
        if tableTotal tabs.t5 cond ≠ 0 then lam else { lam with l4 := lam.l4 + lam.l5 },
        { tabs with t5 := (ddGet tabs.t5 cond).2 }) := by
  simp only [order5Step, ddGet_fst, tableTotal, tableCount]
  split_ifs <;> simp

theorem order4Step_eq (letter : PySym) (cond : PyKey) (p : ℚ) (lam : Lambdas)
    (tabs : NGTables) :
    order4Step letter cond p lam tabs =
      (if tableTotal tabs.t4 cond ≠ 0
          then p + (tableCount tabs.t4 cond letter : ℚ) * lam.l4 / (tableTotal tabs.t4 cond : ℚ)
          else p,
        if tableTotal tabs.t4 cond ≠ 0 then lam else { lam with l3 := lam.l3 + lam.l4 },
        { tabs with t4 := (ddGet tabs.t4 cond).2 }) := by
  simp only [order4Step, ddGet_fst, tableTotal, tableCount]
  split_ifs <;> simp

theorem order3Step_eq (letter : PySym) (cond : PyKey) (p : ℚ) (lam : Lambdas)
    (tabs : NGTables) :
    order3Step letter cond p lam tabs =
      (if tableTotal tabs.t3 cond ≠ 0
          then p + (tableCount tabs.t3 cond letter : ℚ) * lam.l3 / (tableTotal tabs.t3 cond : ℚ)
          else p,
        if tableTotal tabs.t3 cond ≠ 0 then lam else { lam with l2 := lam.l2 + lam.l3 },
        { tabs with t3 := (ddGet tabs.t3 cond).2 }) := by
  simp only [order3Step, ddGet_fst, tableTotal, tableCount]
  split_ifs <;> simp

theorem order2Step_eq (letter : PySym) (cond : PyKey) (p : ℚ) (lam : Lambdas)
    (tabs : NGTables) :
    order2Step letter cond p lam tabs =
      (if tableTotal tabs.t2 cond ≠ 0
          then p + (tableCount tabs.t2 cond letter : ℚ) * lam.l2 / (tableTotal tabs.t2 cond : ℚ)
          else p,
        if tableTotal tabs.t2 cond ≠ 0 then lam else { lam with l1 := lam.l1 + lam.l2 },
        { tabs with t2 := (ddGet tabs.t2 cond).2 }) := by
  simp only [order2Step, ddGet_fst, tableTotal, tableCount]
  split_ifs <;> simp

set_option maxHeartbeats 1000000 in
theorem acc_tabs_eq (letter : PySym) (context : List PySym) (n : ℕ)
    (lambdas : Lambdas) (tabs : NGTables) :
    (get_ngram_prob_acc letter context n lambdas tabs).2.2 =
      { t1 := tabs.t1,
        t2 := if n > 1 then (ddGet tabs.t2 (pyConditional context)).2 else tabs.t2,
        t3 := if n > 2 then (ddGet tabs.t3 (pyConditional context)).2 else tabs.t3,
        t4 := if n > 3 then (ddGet tabs.t4 (pyConditional context)).2 else tabs.t4,
        t5 := if n > 4 then (ddGet tabs.t5 (pyConditional context)).2 else tabs.t5 } := by
  unfold get_ngram_prob_acc
  by_cases h5 : n > 4 <;> by_cases h4 : n > 3 <;> by_cases h3 : n > 2 <;>
    by_cases h2 : n > 1 <;> by_cases h1 : n > 0
  all_goals first
    | omega
    | (simp only [stage5, stage4, stage3, stage2, uniStage, h5, h4, h3, h2, h1,
        if_true, if_false, ite_true, ite_false, order5Step_eq, order4Step_eq,
        order3Step_eq, order2Step_eq]
       all_goals first
         | rfl
         | (split_ifs <;> rfl))

theorem tablesObsEq_refl (a : NGTables) : tablesObsEq a a :=
  ⟨rfl, fun _ => rfl, fun _ => rfl, fun _ => rfl, fun _ => rfl⟩

theorem tablesObsEq_trans (a b c : NGTables) (h1 : tablesObsEq a b)
    (h2 : tablesObsEq b c) : tablesObsEq a c := by
  obtain ⟨e1, e2, e3, e4, e5⟩ := h1
  obtain ⟨f1, f2, f3, f4, f5⟩ := h2
  exact ⟨e1.trans f1, fun k => (e2 k).trans (f2 k), fun k => (e3 k).trans (f3 k),
    fun k => (e4 k).trans (f4 k), fun k => (e5 k).trans (f5 k)⟩

theorem acc_tabs_obs (letter : PySym) (context : List PySym) (n : ℕ)
    (lambdas : Lambdas) (tabs : NGTables) :
    tablesObsEq (get_ngram_prob_acc letter context n lambdas tabs).2.2 tabs := by
  rw [acc_tabs_eq]
  refine ⟨rfl, fun k => ?_, fun k => ?_, fun k => ?_, fun k => ?_⟩ <;>
    (simp only []
     split_ifs <;> first | rfl | apply ddGet_snd_lookup)

theorem prob_tabs_eq (log : ℚ → ℚ) (letter : PySym) (context : List PySym) (n : ℕ)
    (lambdas : Lambdas) (tabs : NGTables) :
    (get_ngram_prob log letter context n lambdas tabs).2.2 =
      (get_ngram_prob_acc letter context n lambdas tabs).2.2 := by
  unfold get_ngram_prob
  rcases h : get_ngram_prob_acc letter context n lambdas tabs with ⟨op, lam', tabs'⟩
  cases op <;> simp

theorem scoreLetters_tabs_obs (log : ℚ → ℚ) (context : List PySym) (n : ℕ)
    (lambdas : Lambdas) :
    ∀ (letters : List PySym) (probs : List (PySym × ℚ)) (tabs : NGTables),
      tablesObsEq (scoreLetters log context n lambdas letters probs tabs).2 tabs := by
  intro letters
  induction letters with
  | nil => intro probs tabs; exact tablesObsEq_refl tabs
  | cons letter rest ih =>
      intro probs tabs
      simp only [scoreLetters]
      rcases h : get_ngram_prob log letter context n lambdas tabs with ⟨op, lam', tabs'⟩
      have hobs : tablesObsEq tabs' tabs := by
        have := acc_tabs_obs letter context n lambdas tabs
        have he : tabs' = (get_ngram_prob_acc letter context n lambdas tabs).2.2 := by
          rw [← prob_tabs_eq log, h]
        rw [he]
        exact this
      cases op with
      | none => simpa using hobs
      | some p =>
          simp only []
          exact tablesObsEq_trans _ _ _ (ih (addProb probs letter p) tabs') hobs

theorem blanksLoop_tabs_obs (log : ℚ → ℚ) (word : List PySym) (letters : List PySym)
    (n : ℕ) (lambdas : Lambdas) :
    ∀ (idx : List ℕ) (probs : List (PySym × ℚ)) (tabs : NGTables),
      tablesObsEq (blanksLoop log word letters n lambdas idx probs tabs).2 tabs := by
  intro idx
  induction idx with
  | nil => intro probs tabs; exact tablesObsEq_refl tabs
  | cons i rest ih =>
      intro probs tabs
      simp only [blanksLoop]
      split_ifs with hb
      · rcases h : scoreLetters log (extractContext word i n) n lambdas letters probs tabs
          with ⟨op, tabs'⟩
        have hobs : tablesObsEq tabs' tabs := by
          have := scoreLetters_tabs_obs log (extractContext word i n) n lambdas letters probs tabs
          rw [h] at this
          exact this
        cases op with
        | none => simpa using hobs
        | some probs' =>
            simp only []
            exact tablesObsEq_trans _ _ _ (ih probs' tabs') hobs
      · exact ih probs tabs

/-- C5 (counterexample): querying the engine with a context unseen in
training mutates the trained tables — the `defaultdict` read inserts an
empty counter for the unseen key — so the tables are not structurally
unchanged after every query, contradicting the claim as stated. -/
theorem tables_mutated_by_query :
    (get_ngram_prob_acc "a" ["q"] 2 demoLam demoTabs).2.2 ≠ demoTabs := by
  decide

/-- C5 (amended): queries are observationally read-only — after any
engine query or any guess-selector call, every lookup yields exactly the
counter it yielded before (so all counts and totals are preserved) —
but a query with an unseen context inserts an empty counter for it, so
the tables are not structurally unchanged. -/
theorem tables_obs_read_only :
    (∀ (letter : PySym) (context : List PySym) (n : ℕ) (lambdas : Lambdas)
        (tabs : NGTables),
        tablesObsEq (get_ngram_prob_acc letter context n lambdas tabs).2.2 tabs) ∧
      (∀ (log : ℚ → ℚ) (mask guessed : List PySym) (n : ℕ) (lambdas : Lambdas)
        (tabs : NGTables),
        tablesObsEq (ngram_guesser log mask guessed n lambdas tabs).2.2 tabs) := by
  refine ⟨acc_tabs_obs, ?_⟩
  intro log mask guessed n lambdas tabs
  simp only [ngram_guesser]
  rcases h : blanksLoop log (convert_word mask 2)
      (asciiLow.filter (fun l => decide (l ∉ guessed))) n lambdas
      (List.range (convert_word mask 2).length) [] tabs with ⟨op, tabs'⟩
  have hobs : tablesObsEq tabs' tabs := by
    have hb := blanksLoop_tabs_obs log (convert_word mask 2)
      (asciiLow.filter (fun l => decide (l ∉ guessed))) n lambdas
      (List.range (convert_word mask 2).length) [] tabs
    rw [h] at hb
    exact hb
  cases op <;> simpa using hobs

/-- C4: a call to `ngram_guesser` leaves the caller's weight
configuration unchanged — the code hands `lambdas.copy()` to every
`get_ngram_prob` call, and the *copy* is what gets mutated: the second
conjunct exhibits a concrete engine call whose cascading redistribution
really does change the lambda dictionary it was given (so without the
copy the caller's configuration would be corrupted). -/
theorem ngram_guesser_preserves_caller_lambdas :
    (∀ (log : ℚ → ℚ) (mask guessed : List PySym) (n : ℕ) (lambdas : Lambdas)
        (tabs : NGTables),
        (ngram_guesser log mask guessed n lambdas tabs).2.1 = lambdas) ∧
      (get_ngram_prob_acc "a" ["q"] 2 demoLam demoTabs).2.1 ≠ demoLam := by
  constructor
  · intro log mask guessed n lambdas tabs
    simp only [ngram_guesser]
    rcases h : blanksLoop log (convert_word mask 2)
        (asciiLow.filter (fun l => decide (l ∉ guessed))) n lambdas
        (List.range (convert_word mask 2).length) [] tabs with ⟨op, tabs'⟩
    cases op <;> simp
  · intro h
    have hdd : (ddGet demoTabs.t2 (pyConditional ["q"])).1 = [] := by decide
    have h1 := congrArg Lambdas.l1 h
    simp only [get_ngram_prob_acc, stage5, stage4, stage3, stage2, uniStage, order2Step] at h1
    norm_num [hdd, counterTotal, apply_ite Prod.snd, apply_ite Prod.fst, apply_ite Lambdas.l1,
      demoLam] at h1

/-! ## Context extraction at word start (C6) -/

theorem ctxWalk_neg (word : List PySym) (k : ℕ) (ctx : List PySym) :
    ctxWalk word (-1) k ctx = ctx := by
  cases k with
  | zero => rfl
  | succ k => simp [ctxWalk]

/-- C6 (counterexample): for order `n = 3`, the context the guess
selector extracts for a word-start blank is the single sentinel
`["<s1>"]` — the mask is padded by `convert_word(mask, 2)` regardless of
`n` — while the builder pads order-3 training words with the two
distinct sentinels `["<s1>", "<s2>"]`; the extracted context is not the
builder's `n-1` sentinel context. -/
theorem guesser_context_shorter_than_builder_padding :
    extractContext (convert_word ["_", "a", "t"] 2) 1 3 = ["<s1>"] ∧
      startSentinels 3 = ["<s1>", "<s2>"] ∧ (["<s1>"] : List PySym) ≠ ["<s1>", "<s2>"] := by
  decide

/-- C6 (amended): the guess selector always pads the mask at order 2, so
for every mask whose leftmost blank sits at the word start and every
order `n ≥ 2` the extracted context at that blank is exactly `["<s1>"]`;
this coincides with the builder's start padding only for `n = 2`
(`startSentinels 2 = ["<s1>"]`). -/
theorem word_start_context (mask : List PySym) (n : ℕ) (h2 : 2 ≤ n)
    (_hm : mask.headI = "_") :
    extractContext (convert_word mask 2) 1 n = ["<s1>"] ∧ startSentinels 2 = ["<s1>"] := by
  refine ⟨?_, by decide⟩
  have hs : startSentinels 2 = ["<s1>"] := by decide
  have he : endSentinels 2 = ["</s1>"] := by decide
  have hw : convert_word mask 2 = "<s1>" :: (mask.map pyLower ++ ["</s1>"]) := by
    simp [convert_word, hs, he]
  unfold extractContext
  rw [hw]
  obtain ⟨k, hk⟩ : ∃ k, n - 1 = k + 1 := ⟨n - 2, by omega⟩
  rw [hk]
  have h0 : ((1 : ℕ) : ℤ) - 1 = 0 := by norm_num
  rw [h0, ctxWalk]
  have hp : pyGet ("<s1>" :: (mask.map pyLower ++ ["</s1>"])) 0 = "<s1>" := by
    simp [pyGet]
  rw [hp]
  rw [if_pos (by refine ⟨by decide, by norm_num⟩)]
  rw [(by norm_num : (0 : ℤ) - 1 = -1)]
  exact ctxWalk_neg _ _ _

theorem word_start_context_witness :
    (2 ≤ 2 ∧ (["_", "a", "t"] : List PySym).headI = "_") ∧
      (extractContext (convert_word ["_", "a", "t"] 2) 1 2 = ["<s1>"] ∧
        startSentinels 2 = ["<s1>"]) :=
  ⟨⟨by decide, by decide⟩, word_start_context ["_", "a", "t"] 2 (by decide) (by decide)⟩

/-! ## Projection-level component lemmas for the engine blocks -/

theorem order5Step_fst (letter : PySym) (cond : PyKey) (p : ℚ) (lam : Lambdas)
    (tabs : NGTables) :
    (order5Step letter cond p lam tabs).1 =
      if tableTotal tabs.t5 cond ≠ 0
        then p + (tableCount tabs.t5 cond letter : ℚ) * lam.l5 / (tableTotal tabs.t5 cond : ℚ)
        else p := by
  rw [order5Step_eq]

theorem order5Step_l0 (letter : PySym) (cond : PyKey) (p : ℚ) (lam : Lambdas)
    (tabs : NGTables) :
    (order5Step letter cond p lam tabs).2.1.l0 = lam.l0 := by
  rw [order5Step_eq]
  split_ifs <;> rfl

theorem order5Step_l1 (letter : PySym) (cond : PyKey) (p : ℚ) (lam : Lambdas)
    (tabs : NGTables) :
    (order5Step letter cond p lam tabs).2.1.l1 = lam.l1 := by
  rw [order5Step_eq]
  split_ifs <;> rfl

theorem order5Step_l2 (letter : PySym) (cond : PyKey) (p : ℚ) (lam : Lambdas)
    (tabs : NGTables) :
    (order5Step letter cond p lam tabs).2.1.l2 = lam.l2 := by
  rw [order5Step_eq]
  split_ifs <;> rfl

theorem order5Step_l3 (letter : PySym) (cond : PyKey) (p : ℚ) (lam : Lambdas)
    (tabs : NGTables) :
    (order5Step letter cond p lam tabs).2.1.l3 = lam.l3 := by
  rw [order5Step_eq]
  split_ifs <;> rfl

theorem order5Step_l4 (letter : PySym) (cond : PyKey) (p : ℚ) (lam : Lambdas)
    (tabs : NGTables) :
    (order5Step letter cond p lam tabs).2.1.l4 = if tableTotal tabs.t5 cond ≠ 0 then lam.l4 else lam.l4 + lam.l5 := by
  rw [order5Step_eq]
  split_ifs <;> rfl

theorem order5Step_l5 (letter : PySym) (cond : PyKey) (p : ℚ) (lam : Lambdas)
    (tabs : NGTables) :
    (order5Step letter cond p lam tabs).2.1.l5 = lam.l5 := by
  rw [order5Step_eq]
  split_ifs <;> rfl

theorem order5Step_t1 (letter : PySym) (cond : PyKey) (p : ℚ) (lam : Lambdas)
    (tabs : NGTables) :
    (order5Step letter cond p lam tabs).2.2.t1 = tabs.t1 := by
  rw [order5Step_eq]

theorem order5Step_t2 (letter : PySym) (cond : PyKey) (p : ℚ) (lam : Lambdas)
    (tabs : NGTables) :
    (order5Step letter cond p lam tabs).2.2.t2 = tabs.t2 := by
  rw [order5Step_eq]

theorem order5Step_t3 (letter : PySym) (cond : PyKey) (p : ℚ) (lam : Lambdas)
    (tabs : NGTables) :
    (order5Step letter cond p lam tabs).2.2.t3 = tabs.t3 := by
  rw [order5Step_eq]

theorem order5Step_t4 (letter : PySym) (cond : PyKey) (p : ℚ) (lam : Lambdas)
    (tabs : NGTables) :
    (order5Step letter cond p lam tabs).2.2.t4 = tabs.t4 := by
  rw [order5Step_eq]

theorem order5Step_t5 (letter : PySym) (cond : PyKey) (p : ℚ) (lam : Lambdas)
    (tabs : NGTables) :
    (order5Step letter cond p lam tabs).2.2.t5 = (ddGet tabs.t5 cond).2 := by
  rw [order5Step_eq]

theorem order4Step_fst (letter : PySym) (cond : PyKey) (p : ℚ) (lam : Lambdas)
    (tabs : NGTables) :
    (order4Step letter cond p lam tabs).1 =
      if tableTotal tabs.t4 cond ≠ 0
        then p + (tableCount tabs.t4 cond letter : ℚ) * lam.l4 / (tableTotal tabs.t4 cond : ℚ)
        else p := by
  rw [order4Step_eq]

theorem order4Step_l0 (letter : PySym) (cond : PyKey) (p : ℚ) (lam : Lambdas)
    (tabs : NGTables) :
    (order4Step letter cond p lam tabs).2.1.l0 = lam.l0 := by
  rw [order4Step_eq]
  split_ifs <;> rfl

theorem order4Step_l1 (letter : PySym) (cond : PyKey) (p : ℚ) (lam : Lambdas)
    (tabs : NGTables) :
    (order4Step letter cond p lam tabs).2.1.l1 = lam.l1 := by
  rw [order4Step_eq]
  split_ifs <;> rfl

theorem order4Step_l2 (letter : PySym) (cond : PyKey) (p : ℚ) (lam : Lambdas)
    (tabs : NGTables) :
    (order4Step letter cond p lam tabs).2.1.l2 = lam.l2 := by
  rw [order4Step_eq]
  split_ifs <;> rfl

theorem order4Step_l3 (letter : PySym) (cond : PyKey) (p : ℚ) (lam : Lambdas)
    (tabs : NGTables) :
    (order4Step letter cond p lam tabs).2.1.l3 = if tableTotal tabs.t4 cond ≠ 0 then lam.l3 else lam.l3 + lam.l4 := by
  rw [order4Step_eq]
  split_ifs <;> rfl

theorem order4Step_l4 (letter : PySym) (cond : PyKey) (p : ℚ) (lam : Lambdas)
    (tabs : NGTables) :
    (order4Step letter cond p lam tabs).2.1.l4 = lam.l4 := by
  rw [order4Step_eq]
  split_ifs <;> rfl

theorem order4Step_l5 (letter : PySym) (cond : PyKey) (p : ℚ) (lam : Lambdas)
    (tabs : NGTables) :
    (order4Step letter cond p lam tabs).2.1.l5 = lam.l5 := by
  rw [order4Step_eq]
  split_ifs <;> rfl

theorem order4Step_t1 (letter : PySym) (cond : PyKey) (p : ℚ) (lam : Lambdas)
    (tabs : NGTables) :
    (order4Step letter cond p lam tabs).2.2.t1 = tabs.t1 := by
  rw [order4Step_eq]

theorem order4Step_t2 (letter : PySym) (cond : PyKey) (p : ℚ) (lam : Lambdas)
    (tabs : NGTables) :
    (order4Step letter cond p lam tabs).2.2.t2 = tabs.t2 := by
  rw [order4Step_eq]

theorem order4Step_t3 (letter : PySym) (cond : PyKey) (p : ℚ) (lam : Lambdas)
    (tabs : NGTables) :
    (order4Step letter cond p lam tabs).2.2.t3 = tabs.t3 := by
  rw [order4Step_eq]

theorem order4Step_t4 (letter : PySym) (cond : PyKey) (p : ℚ) (lam : Lambdas)
    (tabs : NGTables) :
    (order4Step letter cond p lam tabs).2.2.t4 = (ddGet tabs.t4 cond).2 := by
  rw [order4Step_eq]

theorem order4Step_t5 (letter : PySym) (cond : PyKey) (p : ℚ) (lam : Lambdas)
    (tabs : NGTables) :
    (order4Step letter cond p lam tabs).2.2.t5 = tabs.t5 := by
  rw [order4Step_eq]

theorem order3Step_fst (letter : PySym) (cond : PyKey) (p : ℚ) (lam : Lambdas)
    (tabs : NGTables) :
    (order3Step letter cond p lam tabs).1 =
      if tableTotal tabs.t3 cond ≠ 0
        then p + (tableCount tabs.t3 cond letter : ℚ) * lam.l3 / (tableTotal tabs.t3 cond : ℚ)
        else p := by
  rw [order3Step_eq]

theorem order3Step_l0 (letter : PySym) (cond : PyKey) (p : ℚ) (lam : Lambdas)
    (tabs : NGTables) :
    (order3Step letter cond p lam tabs).2.1.l0 = lam.l0 := by
  rw [order3Step_eq]
  split_ifs <;> rfl

theorem order3Step_l1 (letter : PySym) (cond : PyKey) (p : ℚ) (lam : Lambdas)
    (tabs : NGTables) :
    (order3Step letter cond p lam tabs).2.1.l1 = lam.l1 := by
  rw [order3Step_eq]
  split_ifs <;> rfl

theorem order3Step_l2 (letter : PySym) (cond : PyKey) (p : ℚ) (lam : Lambdas)
    (tabs : NGTables) :
    (order3Step letter cond p lam tabs).2.1.l2 = if tableTotal tabs.t3 cond ≠ 0 then lam.l2 else lam.l2 + lam.l3 := by
  rw [order3Step_eq]
  split_ifs <;> rfl

theorem order3Step_l3 (letter : PySym) (cond : PyKey) (p : ℚ) (lam : Lambdas)
    (tabs : NGTables) :
    (order3Step letter cond p lam tabs).2.1.l3 = lam.l3 := by
  rw [order3Step_eq]
  split_ifs <;> rfl

theorem order3Step_l4 (letter : PySym) (cond : PyKey) (p : ℚ) (lam : Lambdas)
    (tabs : NGTables) :
    (order3Step letter cond p lam tabs).2.1.l4 = lam.l4 := by
  rw [order3Step_eq]
  split_ifs <;> rfl

theorem order3Step_l5 (letter : PySym) (cond : PyKey) (p : ℚ) (lam : Lambdas)
    (tabs : NGTables) :
    (order3Step letter cond p lam tabs).2.1.l5 = lam.l5 := by
  rw [order3Step_eq]
  split_ifs <;> rfl

theorem order3Step_t1 (letter : PySym) (cond : PyKey) (p : ℚ) (lam : Lambdas)
    (tabs : NGTables) :
    (order3Step letter cond p lam tabs).2.2.t1 = tabs.t1 := by
  rw [order3Step_eq]

theorem order3Step_t2 (letter : PySym) (cond : PyKey) (p : ℚ) (lam : Lambdas)
    (tabs : NGTables) :
    (order3Step letter cond p lam tabs).2.2.t2 = tabs.t2 := by
  rw [order3Step_eq]

theorem order3Step_t3 (letter : PySym) (cond : PyKey) (p : ℚ) (lam : Lambdas)
    (tabs : NGTables) :
    (order3Step letter cond p lam tabs).2.2.t3 = (ddGet tabs.t3 cond).2 := by
  rw [order3Step_eq]

theorem order3Step_t4 (letter : PySym) (cond : PyKey) (p : ℚ) (lam : Lambdas)
    (tabs : NGTables) :
    (order3Step letter cond p lam tabs).2.2.t4 = tabs.t4 := by
  rw [order3Step_eq]

theorem order3Step_t5 (letter : PySym) (cond : PyKey) (p : ℚ) (lam : Lambdas)
    (tabs : NGTables) :
    (order3Step letter cond p lam tabs).2.2.t5 = tabs.t5 := by
  rw [order3Step_eq]

theorem order2Step_fst (letter : PySym) (cond : PyKey) (p : ℚ) (lam : Lambdas)
    (tabs : NGTables) :
    (order2Step letter cond p lam tabs).1 =
      if tableTotal tabs.t2 cond ≠ 0
        then p + (tableCount tabs.t2 cond letter : ℚ) * lam.l2 / (tableTotal tabs.t2 cond : ℚ)
        else p := by
  rw [order2Step_eq]

theorem order2Step_l0 (letter : PySym) (cond : PyKey) (p : ℚ) (lam : Lambdas)
    (tabs : NGTables) :
    (order2Step letter cond p lam tabs).2.1.l0 = lam.l0 := by
  rw [order2Step_eq]
  split_ifs <;> rfl

theorem order2Step_l1 (letter : PySym) (cond : PyKey) (p : ℚ) (lam : Lambdas)
    (tabs : NGTables) :
    (order2Step letter cond p lam tabs).2.1.l1 = if tableTotal tabs.t2 cond ≠ 0 then lam.l1 else lam.l1 + lam.l2 := by
  rw [order2Step_eq]
  split_ifs <;> rfl

theorem order2Step_l2 (letter : PySym) (cond : PyKey) (p : ℚ) (lam : Lambdas)
    (tabs : NGTables) :
    (order2Step letter cond p lam tabs).2.1.l2 = lam.l2 := by
  rw [order2Step_eq]
  split_ifs <;> rfl

theorem order2Step_l3 (letter : PySym) (cond : PyKey) (p : ℚ) (lam : Lambdas)
    (tabs : NGTables) :
    (order2Step letter cond p lam tabs).2.1.l3 = lam.l3 := by
  rw [order2Step_eq]
  split_ifs <;> rfl

theorem order2Step_l4 (letter : PySym) (cond : PyKey) (p : ℚ) (lam : Lambdas)
    (tabs : NGTables) :
    (order2Step letter cond p lam tabs).2.1.l4 = lam.l4 := by
  rw [order2Step_eq]
  split_ifs <;> rfl

theorem order2Step_l5 (letter : PySym) (cond : PyKey) (p : ℚ) (lam : Lambdas)
    (tabs : NGTables) :
    (order2Step letter cond p lam tabs).2.1.l5 = lam.l5 := by
  rw [order2Step_eq]
  split_ifs <;> rfl

theorem order2Step_t1 (letter : PySym) (cond : PyKey) (p : ℚ) (lam : Lambdas)
    (tabs : NGTables) :
    (order2Step letter cond p lam tabs).2.2.t1 = tabs.t1 := by
  rw [order2Step_eq]

theorem order2Step_t2 (letter : PySym) (cond : PyKey) (p : ℚ) (lam : Lambdas)
    (tabs : NGTables) :
    (order2Step letter cond p lam tabs).2.2.t2 = (ddGet tabs.t2 cond).2 := by
  rw [order2Step_eq]

theorem order2Step_t3 (letter : PySym) (cond : PyKey) (p : ℚ) (lam : Lambdas)
    (tabs : NGTables) :
    (order2Step letter cond p lam tabs).2.2.t3 = tabs.t3 := by
  rw [order2Step_eq]

theorem order2Step_t4 (letter : PySym) (cond : PyKey) (p : ℚ) (lam : Lambdas)
    (tabs : NGTables) :
    (order2Step letter cond p lam tabs).2.2.t4 = tabs.t4 := by
  rw [order2Step_eq]

theorem order2Step_t5 (letter : PySym) (cond : PyKey) (p : ℚ) (lam : Lambdas)
    (tabs : NGTables) :
    (order2Step letter cond p lam tabs).2.2.t5 = tabs.t5 := by
  rw [order2Step_eq]

theorem stage5_pos (letter : PySym) (cond : PyKey) (n : ℕ)
    (st : ℚ × Lambdas × NGTables) (h : n > 4) :
    stage5 letter cond n st = order5Step letter cond st.1 st.2.1 st.2.2 := by
  simp [stage5, h]

theorem stage5_neg (letter : PySym) (cond : PyKey) (n : ℕ)
    (st : ℚ × Lambdas × NGTables) (h : ¬ n > 4) :
    stage5 letter cond n st = st := by
  simp [stage5, h]

theorem stage4_pos (letter : PySym) (cond : PyKey) (n : ℕ)
    (st : ℚ × Lambdas × NGTables) (h : n > 3) :
    stage4 letter cond n st = order4Step letter cond st.1 st.2.1 st.2.2 := by
  simp [stage4, h]

theorem stage4_neg (letter : PySym) (cond : PyKey) (n : ℕ)
    (st : ℚ × Lambdas × NGTables) (h : ¬ n > 3) :
    stage4 letter cond n st = st := by
  simp [stage4, h]

theorem stage3_pos (letter : PySym) (cond : PyKey) (n : ℕ)
    (st : ℚ × Lambdas × NGTables) (h : n > 2) :
    stage3 letter cond n st = order3Step letter cond st.1 st.2.1 st.2.2 := by
  simp [stage3, h]

theorem stage3_neg (letter : PySym) (cond : PyKey) (n : ℕ)
    (st : ℚ × Lambdas × NGTables) (h : ¬ n > 2) :
    stage3 letter cond n st = st := by
  simp [stage3, h]

theorem stage2_pos (letter : PySym) (cond : PyKey) (n : ℕ)
    (st : ℚ × Lambdas × NGTables) (h : n > 1) :
    stage2 letter cond n st = order2Step letter cond st.1 st.2.1 st.2.2 := by
  simp [stage2, h]

theorem stage2_neg (letter : PySym) (cond : PyKey) (n : ℕ)
    (st : ℚ × Lambdas × NGTables) (h : ¬ n > 1) :
    stage2 letter cond n st = st := by
  simp [stage2, h]

theorem uniStage_fst (letter : PySym) (n : ℕ) (st : ℚ × Lambdas × NGTables)
    (hn : n > 0) (ht : counterTotal st.2.2.t1 ≠ 0) :
    (uniStage letter n st).1 =
      some (st.1 + (counterGet st.2.2.t1 letter : ℚ) * st.2.1.l1 /
        (counterTotal st.2.2.t1 : ℚ)) := by
  simp [uniStage, hn, ht]

theorem uniStage_fst_none (letter : PySym) (n : ℕ) (st : ℚ × Lambdas × NGTables)
    (hn : n > 0) (ht : counterTotal st.2.2.t1 = 0) :
    (uniStage letter n st).1 = none := by
  simp [uniStage, hn, ht]

theorem uniStage_lam (letter : PySym) (n : ℕ) (st : ℚ × Lambdas × NGTables)
    (hn : n > 0) (ht : counterTotal st.2.2.t1 ≠ 0) :
    (uniStage letter n st).2.1 = st.2.1 := by
  simp [uniStage, hn, ht]

/-- Core cascade characterization of the engine, shared by several
results below: the probability mass accumulated by `get_ngram_prob` and
its final order-1 weight coincide with the spec-modelled descending
cascade. -/
theorem acc_cascade_core (letter : PySym) (context : List PySym) (n : ℕ)
    (lam : Lambdas) (tabs : NGTables) (h1 : 1 ≤ n) (h5 : n ≤ 5)
    (ht : counterTotal tabs.t1 ≠ 0) :
    (get_ngram_prob_acc letter context n lam tabs).1 =
      some ((specCascade (orderCount tabs (pyConditional context) letter)
            (orderTotal tabs (pyConditional context)) (lamFun lam) n).1 +
          (counterGet tabs.t1 letter : ℚ) *
            (lam.l1 + (specCascade (orderCount tabs (pyConditional context) letter)
              (orderTotal tabs (pyConditional context)) (lamFun lam) n).2) /
            (counterTotal tabs.t1 : ℚ)) ∧
      (get_ngram_prob_acc letter context n lam tabs).2.1.l1 =
        lam.l1 + (specCascade (orderCount tabs (pyConditional context) letter)
          (orderTotal tabs (pyConditional context)) (lamFun lam) n).2 := by
  have o1 : ordersDesc 1 = [] := by decide
  have o2 : ordersDesc 2 = [2] := by decide
  have o3 : ordersDesc 3 = [3, 2] := by decide
  have o4 : ordersDesc 4 = [4, 3, 2] := by decide
  have o5 : ordersDesc 5 = [5, 4, 3, 2] := by decide
  interval_cases n <;>
    (constructor <;>
      (simp only [get_ngram_prob_acc]
       first
         | rw [stage5_pos letter _ _ _ (by omega)]
         | rw [stage5_neg letter _ _ _ (by omega)]
       first
         | rw [stage4_pos letter _ _ _ (by omega)]
         | rw [stage4_neg letter _ _ _ (by omega)]
       first
         | rw [stage3_pos letter _ _ _ (by omega)]
         | rw [stage3_neg letter _ _ _ (by omega)]
       first
         | rw [stage2_pos letter _ _ _ (by omega)]
         | rw [stage2_neg letter _ _ _ (by omega)]
       first
         | rw [uniStage_fst letter _ _ (by omega)
             (by first
               | (simp only [order2Step_t1, order3Step_t1, order4Step_t1, order5Step_t1]
                  exact ht)
               | exact ht)]
         | rw [uniStage_lam letter _ _ (by omega)
             (by first
               | (simp only [order2Step_t1, order3Step_t1, order4Step_t1, order5Step_t1]
                  exact ht)
               | exact ht)]
       simp only [Option.some.injEq, order5Step_fst, order4Step_fst, order3Step_fst,
         order2Step_fst, order5Step_l4, order5Step_l3, order5Step_l2, order5Step_l1,
         order4Step_l3, order4Step_l2, order4Step_l1, order3Step_l2, order3Step_l1,
         order2Step_l1, order5Step_t1, order5Step_t2, order5Step_t3, order5Step_t4,
         order4Step_t1, order4Step_t2, order4Step_t3, order3Step_t1, order3Step_t2,
         order2Step_t1, specCascade, o1, o2, o3, o4, o5, specCascadeAux,
         orderCount, orderTotal, lamFun]
       first
         | (split_ifs <;> ring)
         | ring))

/-- C1: weight cascading.  The probability mass `get_ngram_prob`
accumulates is exactly the spec's cascade: orders are scored from `n`
down to 2; an order whose context total is zero contributes nothing and
its (working) weight is added to the next lower order's weight before
that order is scored, while an order with a non-zero total contributes
`weight * count / total`; the unigram term is then scored with
`lambdas[1]` plus whatever weight cascaded all the way down, which is
also the final value of `lambdas[1]`. -/
theorem get_ngram_prob_cascades (letter : PySym) (context : List PySym) (n : ℕ)
    (lam : Lambdas) (tabs : NGTables) (h1 : 1 ≤ n) (h5 : n ≤ 5)
    (ht : counterTotal tabs.t1 ≠ 0) :
    (get_ngram_prob_acc letter context n lam tabs).1 =
      some ((specCascade (orderCount tabs (pyConditional context) letter)
            (orderTotal tabs (pyConditional context)) (lamFun lam) n).1 +
          (counterGet tabs.t1 letter : ℚ) *
            (lam.l1 + (specCascade (orderCount tabs (pyConditional context) letter)
              (orderTotal tabs (pyConditional context)) (lamFun lam) n).2) /
            (counterTotal tabs.t1 : ℚ)) ∧
      (get_ngram_prob_acc letter context n lam tabs).2.1.l1 =
        lam.l1 + (specCascade (orderCount tabs (pyConditional context) letter)
          (orderTotal tabs (pyConditional context)) (lamFun lam) n).2 :=
  acc_cascade_core letter context n lam tabs h1 h5 ht

theorem get_ngram_prob_cascades_witness :
    (1 ≤ 3 ∧ 3 ≤ 5 ∧ counterTotal demoTabs.t1 ≠ 0) ∧
      ((get_ngram_prob_acc "t" ["c", "a"] 3 demoLam3 demoTabs).1 =
        some ((specCascade (orderCount demoTabs (pyConditional ["c", "a"]) "t")
              (orderTotal demoTabs (pyConditional ["c", "a"])) (lamFun demoLam3) 3).1 +
            (counterGet demoTabs.t1 "t" : ℚ) *
              (demoLam3.l1 + (specCascade (orderCount demoTabs (pyConditional ["c", "a"]) "t")
                (orderTotal demoTabs (pyConditional ["c", "a"])) (lamFun demoLam3) 3).2) /
              (counterTotal demoTabs.t1 : ℚ)) ∧
        (get_ngram_prob_acc "t" ["c", "a"] 3 demoLam3 demoTabs).2.1.l1 =
          demoLam3.l1 + (specCascade (orderCount demoTabs (pyConditional ["c", "a"]) "t")
            (orderTotal demoTabs (pyConditional ["c", "a"])) (lamFun demoLam3) 3).2) :=
  ⟨⟨by decide, by decide, by decide⟩,
    get_ngram_prob_cascades "t" ["c", "a"] 3 demoLam3 demoTabs (by decide) (by decide)
      (by decide)⟩

set_option maxHeartbeats 1000000 in
/-- C3: weight-sum conservation.  For one probability computation with a
weight configuration holding orders 0..n that sums to 1, the weight
accounted for at the end — the residual order-0 weight, the weight
multiplied into the unigram term (the final `lambdas[1]`), and the final
weight of every order 2..n that contributed (zero-total orders
contribute nothing; their weight cascaded into a lower order instead) —
is exactly the configured 1. -/
theorem lambda_weight_conservation (letter : PySym) (context : List PySym) (n : ℕ)
    (lam : Lambdas) (tabs : NGTables) (h1 : 1 ≤ n) (h5 : n ≤ 5)
    (ht : counterTotal tabs.t1 ≠ 0) (hsum : lamSum lam n = 1) :
    (get_ngram_prob_acc letter context n lam tabs).2.1.l0 +
      (get_ngram_prob_acc letter context n lam tabs).2.1.l1 +
      contribSum (get_ngram_prob_acc letter context n lam tabs).2.1 tabs
        (pyConditional context) n = 1 := by
  have o1 : ordersDesc 1 = [] := by decide
  have o2 : ordersDesc 2 = [2] := by decide
  have o3 : ordersDesc 3 = [3, 2] := by decide
  have o4 : ordersDesc 4 = [4, 3, 2] := by decide
  have o5 : ordersDesc 5 = [5, 4, 3, 2] := by decide
  interval_cases n
  · -- n = 1
    simp only [lamSum, (by decide : List.range 2 = [0, 1]), List.map_cons,
      List.map_nil, List.sum_cons, List.sum_nil, lamFun] at hsum
    simp only [get_ngram_prob_acc]
    rw [stage5_neg letter _ _ _ (by omega)]
    rw [stage4_neg letter _ _ _ (by omega)]
    rw [stage3_neg letter _ _ _ (by omega)]
    rw [stage2_neg letter _ _ _ (by omega)]
    rw [uniStage_lam letter 1 (0, lam, tabs) (by omega) (by exact ht)]
    simp only [contribSum, o1, List.map_nil, List.sum_nil]
    try dsimp only
    linarith
  · -- n = 2
    simp only [lamSum, (by decide : List.range 3 = [0, 1, 2]), List.map_cons,
      List.map_nil, List.sum_cons, List.sum_nil, lamFun] at hsum
    simp only [get_ngram_prob_acc]
    rw [stage5_neg letter _ _ _ (by omega)]
    rw [stage4_neg letter _ _ _ (by omega)]
    rw [stage3_neg letter _ _ _ (by omega)]
    rw [stage2_pos letter _ _ _ (by omega)]
    dsimp only
    generalize hA : order2Step letter (pyConditional context) 0 lam tabs = A
    have eA_l0 := order2Step_l0 letter (pyConditional context) 0 lam tabs
    rw [hA] at eA_l0
    have eA_l1 := order2Step_l1 letter (pyConditional context) 0 lam tabs
    rw [hA] at eA_l1
    have eA_l2 := order2Step_l2 letter (pyConditional context) 0 lam tabs
    rw [hA] at eA_l2
    have eA_l3 := order2Step_l3 letter (pyConditional context) 0 lam tabs
    rw [hA] at eA_l3
    have eA_l4 := order2Step_l4 letter (pyConditional context) 0 lam tabs
    rw [hA] at eA_l4
    have eA_l5 := order2Step_l5 letter (pyConditional context) 0 lam tabs
    rw [hA] at eA_l5
    have eA_t1 := order2Step_t1 letter (pyConditional context) 0 lam tabs
    rw [hA] at eA_t1
    rw [uniStage_lam letter 2 A (by omega) (by rw [eA_t1]; exact ht)]
    simp only [contribSum, o2, List.map_cons, List.map_nil, List.sum_cons,
      List.sum_nil, orderTotal, lamFun]
    rw [eA_l0, eA_l1, eA_l2]
    split_ifs <;> linarith
  · -- n = 3
    simp only [lamSum, (by decide : List.range 4 = [0, 1, 2, 3]), List.map_cons,
      List.map_nil, List.sum_cons, List.sum_nil, lamFun] at hsum
    simp only [get_ngram_prob_acc]
    rw [stage5_neg letter _ _ _ (by omega)]
    rw [stage4_neg letter _ _ _ (by omega)]
    rw [stage3_pos letter _ _ _ (by omega)]
    rw [stage2_pos letter _ _ _ (by omega)]
    dsimp only
    generalize hA : order3Step letter (pyConditional context) 0 lam tabs = A
    have eA_l0 := order3Step_l0 letter (pyConditional context) 0 lam tabs
    rw [hA] at eA_l0
    have eA_l1 := order3Step_l1 letter (pyConditional context) 0 lam tabs
    rw [hA] at eA_l1
    have eA_l2 := order3Step_l2 letter (pyConditional context) 0 lam tabs
    rw [hA] at eA_l2
    have eA_l3 := order3Step_l3 letter (pyConditional context) 0 lam tabs
    rw [hA] at eA_l3
    have eA_l4 := order3Step_l4 letter (pyConditional context) 0 lam tabs
    rw [hA] at eA_l4
    have eA_l5 := order3Step_l5 letter (pyConditional context) 0 lam tabs
    rw [hA] at eA_l5
    have eA_t1 := order3Step_t1 letter (pyConditional context) 0 lam tabs
    rw [hA] at eA_t1
    have eA_t2 := order3Step_t2 letter (pyConditional context) 0 lam tabs
    rw [hA] at eA_t2
    generalize hB : order2Step letter (pyConditional context) A.1 A.2.1 A.2.2 = B
    have eB_l0 := order2Step_l0 letter (pyConditional context) A.1 A.2.1 A.2.2
    rw [hB] at eB_l0
    rw [eA_l0] at eB_l0
    have eB_l1 := order2Step_l1 letter (pyConditional context) A.1 A.2.1 A.2.2
    rw [hB] at eB_l1
    rw [eA_t2, eA_l1, eA_l2] at eB_l1
    have eB_l2 := order2Step_l2 letter (pyConditional context) A.1 A.2.1 A.2.2
    rw [hB] at eB_l2
    rw [eA_l2] at eB_l2
    have eB_l3 := order2Step_l3 letter (pyConditional context) A.1 A.2.1 A.2.2
    rw [hB] at eB_l3
    rw [eA_l3] at eB_l3
    have eB_l4 := order2Step_l4 letter (pyConditional context) A.1 A.2.1 A.2.2
    rw [hB] at eB_l4
    rw [eA_l4] at eB_l4
    have eB_l5 := order2Step_l5 letter (pyConditional context) A.1 A.2.1 A.2.2
    rw [hB] at eB_l5
    rw [eA_l5] at eB_l5
    have eB_t1 := order2Step_t1 letter (pyConditional context) A.1 A.2.1 A.2.2
    rw [hB] at eB_t1
    rw [eA_t1] at eB_t1
    rw [uniStage_lam letter 3 B (by omega) (by rw [eB_t1]; exact ht)]
    simp only [contribSum, o3, List.map_cons, List.map_nil, List.sum_cons,
      List.sum_nil, orderTotal, lamFun]
    rw [eB_l0, eB_l1, eB_l2, eB_l3]
    split_ifs <;> linarith
  · -- n = 4
    simp only [lamSum, (by decide : List.range 5 = [0, 1, 2, 3, 4]), List.map_cons,
      List.map_nil, List.sum_cons, List.sum_nil, lamFun] at hsum
    simp only [get_ngram_prob_acc]
    rw [stage5_neg letter _ _ _ (by omega)]
    rw [stage4_pos letter _ _ _ (by omega)]
    rw [stage3_pos letter _ _ _ (by omega)]
    rw [stage2_pos letter _ _ _ (by omega)]
    dsimp only
    generalize hA : order4Step letter (pyConditional context) 0 lam tabs = A
    have eA_l0 := order4Step_l0 letter (pyConditional context) 0 lam tabs
    rw [hA] at eA_l0
    have eA_l1 := order4Step_l1 letter (pyConditional context) 0 lam tabs
    rw [hA] at eA_l1
    have eA_l2 := order4Step_l2 letter (pyConditional context) 0 lam tabs
    rw [hA] at eA_l2
    have eA_l3 := order4Step_l3 letter (pyConditional context) 0 lam tabs
    rw [hA] at eA_l3
    have eA_l4 := order4Step_l4 letter (pyConditional context) 0 lam tabs
    rw [hA] at eA_l4
    have eA_l5 := order4Step_l5 letter (pyConditional context) 0 lam tabs
    rw [hA] at eA_l5
    have eA_t1 := order4Step_t1 letter (pyConditional context) 0 lam tabs
    rw [hA] at eA_t1
    have eA_t2 := order4Step_t2 letter (pyConditional context) 0 lam tabs
    rw [hA] at eA_t2
    have eA_t3 := order4Step_t3 letter (pyConditional context) 0 lam tabs
    rw [hA] at eA_t3
    generalize hB : order3Step letter (pyConditional context) A.1 A.2.1 A.2.2 = B
    have eB_l0 := order3Step_l0 letter (pyConditional context) A.1 A.2.1 A.2.2
    rw [hB] at eB_l0
    rw [eA_l0] at eB_l0
    have eB_l1 := order3Step_l1 letter (pyConditional context) A.1 A.2.1 A.2.2
    rw [hB] at eB_l1
    rw [eA_l1] at eB_l1
    have eB_l2 := order3Step_l2 letter (pyConditional context) A.1 A.2.1 A.2.2
    rw [hB] at eB_l2
    rw [eA_t3, eA_l2, eA_l3] at eB_l2
    have eB_l3 := order3Step_l3 letter (pyConditional context) A.1 A.2.1 A.2.2
    rw [hB] at eB_l3
    rw [eA_l3] at eB_l3
    have eB_l4 := order3Step_l4 letter (pyConditional context) A.1 A.2.1 A.2.2
    rw [hB] at eB_l4
    rw [eA_l4] at eB_l4
    have eB_l5 := order3Step_l5 letter (pyConditional context) A.1 A.2.1 A.2.2
    rw [hB] at eB_l5
    rw [eA_l5] at eB_l5
    have eB_t1 := order3Step_t1 letter (pyConditional context) A.1 A.2.1 A.2.2
    rw [hB] at eB_t1
    rw [eA_t1] at eB_t1
    have eB_t2 := order3Step_t2 letter (pyConditional context) A.1 A.2.1 A.2.2
    rw [hB] at eB_t2
    rw [eA_t2] at eB_t2
    generalize hC : order2Step letter (pyConditional context) B.1 B.2.1 B.2.2 = C
    have eC_l0 := order2Step_l0 letter (pyConditional context) B.1 B.2.1 B.2.2
    rw [hC] at eC_l0
    rw [eB_l0] at eC_l0
    have eC_l1 := order2Step_l1 letter (pyConditional context) B.1 B.2.1 B.2.2
    rw [hC] at eC_l1
    rw [eB_t2, eB_l1, eB_l2] at eC_l1
    have eC_l2 := order2Step_l2 letter (pyConditional context) B.1 B.2.1 B.2.2
    rw [hC] at eC_l2
    rw [eB_l2] at eC_l2
    have eC_l3 := order2Step_l3 letter (pyConditional context) B.1 B.2.1 B.2.2
    rw [hC] at eC_l3
    rw [eB_l3] at eC_l3
    have eC_l4 := order2Step_l4 letter (pyConditional context) B.1 B.2.1 B.2.2
    rw [hC] at eC_l4
    rw [eB_l4] at eC_l4
    have eC_l5 := order2Step_l5 letter (pyConditional context) B.1 B.2.1 B.2.2
    rw [hC] at eC_l5
    rw [eB_l5] at eC_l5
    have eC_t1 := order2Step_t1 letter (pyConditional context) B.1 B.2.1 B.2.2
    rw [hC] at eC_t1
    rw [eB_t1] at eC_t1
    rw [uniStage_lam letter 4 C (by omega) (by rw [eC_t1]; exact ht)]
    simp only [contribSum, o4, List.map_cons, List.map_nil, List.sum_cons,
      List.sum_nil, orderTotal, lamFun]
    rw [eC_l0, eC_l1, eC_l2, eC_l3, eC_l4]
    split_ifs <;> linarith
  · -- n = 5
    simp only [lamSum, (by decide : List.range 6 = [0, 1, 2, 3, 4, 5]), List.map_cons,
      List.map_nil, List.sum_cons, List.sum_nil, lamFun] at hsum
    simp only [get_ngram_prob_acc]
    rw [stage5_pos letter _ _ _ (by omega)]
    rw [stage4_pos letter _ _ _ (by omega)]
    rw [stage3_pos letter _ _ _ (by omega)]
    rw [stage2_pos letter _ _ _ (by omega)]
    dsimp only
    generalize hA : order5Step letter (pyConditional context) 0 lam tabs = A
    have eA_l0 := order5Step_l0 letter (pyConditional context) 0 lam tabs
    rw [hA] at eA_l0
    have eA_l1 := order5Step_l1 letter (pyConditional context) 0 lam tabs
    rw [hA] at eA_l1
    have eA_l2 := order5Step_l2 letter (pyConditional context) 0 lam tabs
    rw [hA] at eA_l2
    have eA_l3 := order5Step_l3 letter (pyConditional context) 0 lam tabs
    rw [hA] at eA_l3
    have eA_l4 := order5Step_l4 letter (pyConditional context) 0 lam tabs
    rw [hA] at eA_l4
    have eA_l5 := order5Step_l5 letter (pyConditional context) 0 lam tabs
    rw [hA] at eA_l5
    have eA_t1 := order5Step_t1 letter (pyConditional context) 0 lam tabs
    rw [hA] at eA_t1
    have eA_t2 := order5Step_t2 letter (pyConditional context) 0 lam tabs
    rw [hA] at eA_t2
    have eA_t3 := order5Step_t3 letter (pyConditional context) 0 lam tabs
    rw [hA] at eA_t3
    have eA_t4 := order5Step_t4 letter (pyConditional context) 0 lam tabs
    rw [hA] at eA_t4
    generalize hB : order4Step letter (pyConditional context) A.1 A.2.1 A.2.2 = B
    have eB_l0 := order4Step_l0 letter (pyConditional context) A.1 A.2.1 A.2.2
    rw [hB] at eB_l0
    rw [eA_l0] at eB_l0
    have eB_l1 := order4Step_l1 letter (pyConditional context) A.1 A.2.1 A.2.2
    rw [hB] at eB_l1
    rw [eA_l1] at eB_l1
    have eB_l2 := order4Step_l2 letter (pyConditional context) A.1 A.2.1 A.2.2
    rw [hB] at eB_l2
    rw [eA_l2] at eB_l2
    have eB_l3 := order4Step_l3 letter (pyConditional context) A.1 A.2.1 A.2.2
    rw [hB] at eB_l3
    rw [eA_t4, eA_l3, eA_l4] at eB_l3
    have eB_l4 := order4Step_l4 letter (pyConditional context) A.1 A.2.1 A.2.2
    rw [hB] at eB_l4
    rw [eA_l4] at eB_l4
    have eB_l5 := order4Step_l5 letter (pyConditional context) A.1 A.2.1 A.2.2
    rw [hB] at eB_l5
    rw [eA_l5] at eB_l5
    have eB_t1 := order4Step_t1 letter (pyConditional context) A.1 A.2.1 A.2.2
    rw [hB] at eB_t1
    rw [eA_t1] at eB_t1
    have eB_t2 := order4Step_t2 letter (pyConditional context) A.1 A.2.1 A.2.2
    rw [hB] at eB_t2
    rw [eA_t2] at eB_t2
    have eB_t3 := order4Step_t3 letter (pyConditional context) A.1 A.2.1 A.2.2
    rw [hB] at eB_t3
    rw [eA_t3] at eB_t3
    generalize hC : order3Step letter (pyConditional context) B.1 B.2.1 B.2.2 = C
    have eC_l0 := order3Step_l0 letter (pyConditional context) B.1 B.2.1 B.2.2
    rw [hC] at eC_l0
    rw [eB_l0] at eC_l0
    have eC_l1 := order3Step_l1 letter (pyConditional context) B.1 B.2.1 B.2.2
    rw [hC] at eC_l1
    rw [eB_l1] at eC_l1
    have eC_l2 := order3Step_l2 letter (pyConditional context) B.1 B.2.1 B.2.2
    rw [hC] at eC_l2
    rw [eB_t3, eB_l2, eB_l3] at eC_l2
    have eC_l3 := order3Step_l3 letter (pyConditional context) B.1 B.2.1 B.2.2
    rw [hC] at eC_l3
    rw [eB_l3] at eC_l3
    have eC_l4 := order3Step_l4 letter (pyConditional context) B.1 B.2.1 B.2.2
    rw [hC] at eC_l4
    rw [eB_l4] at eC_l4
    have eC_l5 := order3Step_l5 letter (pyConditional context) B.1 B.2.1 B.2.2
    rw [hC] at eC_l5
    rw [eB_l5] at eC_l5
    have eC_t1 := order3Step_t1 letter (pyConditional context) B.1 B.2.1 B.2.2
    rw [hC] at eC_t1
    rw [eB_t1] at eC_t1
    have eC_t2 := order3Step_t2 letter (pyConditional context) B.1 B.2.1 B.2.2
    rw [hC] at eC_t2
    rw [eB_t2] at eC_t2
    generalize hD : order2Step letter (pyConditional context) C.1 C.2.1 C.2.2 = D
    have eD_l0 := order2Step_l0 letter (pyConditional context) C.1 C.2.1 C.2.2
    rw [hD] at eD_l0
    rw [eC_l0] at eD_l0
    have eD_l1 := order2Step_l1 letter (pyConditional context) C.1 C.2.1 C.2.2
    rw [hD] at eD_l1
    rw [eC_t2, eC_l1, eC_l2] at eD_l1
    have eD_l2 := order2Step_l2 letter (pyConditional context) C.1 C.2.1 C.2.2
    rw [hD] at eD_l2
    rw [eC_l2] at eD_l2
    have eD_l3 := order2Step_l3 letter (pyConditional context) C.1 C.2.1 C.2.2
    rw [hD] at eD_l3
    rw [eC_l3] at eD_l3
    have eD_l4 := order2Step_l4 letter (pyConditional context) C.1 C.2.1 C.2.2
    rw [hD] at eD_l4
    rw [eC_l4] at eD_l4
    have eD_l5 := order2Step_l5 letter (pyConditional context) C.1 C.2.1 C.2.2
    rw [hD] at eD_l5
    rw [eC_l5] at eD_l5
    have eD_t1 := order2Step_t1 letter (pyConditional context) C.1 C.2.1 C.2.2
    rw [hD] at eD_t1
    rw [eC_t1] at eD_t1
    rw [uniStage_lam letter 5 D (by omega) (by rw [eD_t1]; exact ht)]
    simp only [contribSum, o5, List.map_cons, List.map_nil, List.sum_cons,
      List.sum_nil, orderTotal, lamFun]
    rw [eD_l0, eD_l1, eD_l2, eD_l3, eD_l4, eD_l5]
    split_ifs <;> linarith

theorem lambda_weight_conservation_witness :
    (1 ≤ 2 ∧ 2 ≤ 5 ∧ counterTotal demoTabs.t1 ≠ 0 ∧ lamSum demoLam 2 = 1) ∧
      (get_ngram_prob_acc "a" ["c"] 2 demoLam demoTabs).2.1.l0 +
        (get_ngram_prob_acc "a" ["c"] 2 demoLam demoTabs).2.1.l1 +
        contribSum (get_ngram_prob_acc "a" ["c"] 2 demoLam demoTabs).2.1 demoTabs
          (pyConditional ["c"]) 2 = 1 :=
  ⟨⟨by decide, by decide, by decide,
      by norm_num [lamSum, lamFun, demoLam, (by decide : List.range 3 = [0, 1, 2])]⟩,
    lambda_weight_conservation "a" ["c"] 2 demoLam demoTabs (by decide) (by decide) (by decide)
      (by norm_num [lamSum, lamFun, demoLam, (by decide : List.range 3 = [0, 1, 2])])⟩

/-- C2 (the code contradicts the claim): with tables trained on "aa",
the candidate letter "z", empty context, `n = 1`, and the weight
configuration `{0: 1/2, 1: 1/2}` — strictly positive zerogram weight,
summing to 1 — the probability accumulated before the logarithm step is
exactly 0, and `math.log` fails (the call returns `none`): the code adds
the order-0 uniform term only inside the empty-unigram-table branch
(which itself raises `TypeError` at `len` of a float), so the configured
zerogram weight never provides the claimed positive floor. -/
theorem zerogram_floor_missing :
    demoLamBug.l0 > 0 ∧ lamSum demoLamBug 1 = 1 ∧
      (get_ngram_prob_acc "z" [] 1 demoLamBug demoTabsBug).1 = some 0 ∧
      (get_ngram_prob id "z" [] 1 demoLamBug demoTabsBug).1 = none := by
  have hacc : (get_ngram_prob_acc "z" [] 1 demoLamBug demoTabsBug).1 = some 0 := by
    simp only [get_ngram_prob_acc]
    rw [stage5_neg "z" _ _ _ (by omega), stage4_neg "z" _ _ _ (by omega),
      stage3_neg "z" _ _ _ (by omega), stage2_neg "z" _ _ _ (by omega)]
    rw [uniStage_fst "z" 1 (0, demoLamBug, demoTabsBug) (by omega) (by decide)]
    have hz : counterGet demoTabsBug.t1 "z" = 0 := by decide
    norm_num [hz]
  refine ⟨by norm_num [demoLamBug], ?_, hacc, ?_⟩
  · norm_num [lamSum, lamFun, demoLamBug, (by decide : List.range 2 = [0, 1])]
  · unfold get_ngram_prob
    rcases h : get_ngram_prob_acc "z" [] 1 demoLamBug demoTabsBug with ⟨op, lam', tabs'⟩
    rw [h] at hacc
    simp only at hacc
    subst hacc
    norm_num

/-! ## Key shapes of the built tables, and the untruncated-context
consequence (C10) -/

theorem foldl_preserve {α β : Type} (f : α → β → α) (P : α → Prop)
    (h : ∀ a b, P a → P (f a b)) : ∀ (l : List β) (a : α), P a → P (l.foldl f a) := by
  intro l
  induction l with
  | nil => intro a ha; exact ha
  | cons x xs ih => intro a ha; exact ih (f a x) (h a x ha)

theorem tableInc_shape (P : PyKey → Prop) (t : PyTable) (k : PyKey) (s : PySym)
    (hT : ∀ p ∈ t, P p.1) (hk : P k) : ∀ p ∈ tableInc t k s, P p.1 := by
  induction t with
  | nil => intro p hp; simp only [tableInc, List.mem_singleton] at hp; subst hp; exact hk
  | cons q rest ih =>
      rcases q with ⟨k', c⟩
      intro p hp
      simp only [tableInc] at hp
      split_ifs at hp with he
      · rcases List.mem_cons.mp hp with h1 | h1
        · subst h1; exact hT (k', c) (List.mem_cons_self _ _)
        · exact hT _ (List.mem_cons_of_mem _ h1)
      · rcases List.mem_cons.mp hp with h1 | h1
        · subst h1; exact hT (k', c) (List.mem_cons_self _ _)
        · refine ih ?_ p h1
          intro q hq
          exact hT q (List.mem_cons_of_mem _ hq)

theorem recordGram_shape (k : ℕ) (hk : k = 2 ∨ k = 3 ∨ k = 4 ∨ k = 5)
    (t : PyTable) (g : List PySym) (hT : ∀ p ∈ t, keyShapeOK k p.1) :
    ∀ p ∈ recordGram t g k, keyShapeOK k p.1 := by
  rcases hk with h | h | h | h <;> subst h <;>
    (intro p hp
     simp only [recordGram] at hp
     norm_num at hp
     exact tableInc_shape _ _ _ _ hT (by simp [keyShapeOK]) p hp)

theorem get_ngram_counts_shape (words : List (List PySym)) (k : ℕ)
    (hk : k = 2 ∨ k = 3 ∨ k = 4 ∨ k = 5) :
    ∀ p ∈ get_ngram_counts words k, keyShapeOK k p.1 := by
  unfold get_ngram_counts
  refine foldl_preserve _ (fun (t : PyTable) => ∀ p ∈ t, keyShapeOK k p.1) ?_ words []
    (by intro p hp; exact absurd hp (List.not_mem_nil p))
  intro t word ht
  dsimp only
  split_ifs
  · exact foldl_preserve _ (fun (t : PyTable) => ∀ p ∈ t, keyShapeOK k p.1)
      (fun (t2 : PyTable) (g : List PySym) ht2 => recordGram_shape k hk t2 g ht2) _ t ht
  · exact ht

theorem ddLookupD_nil_of_shape (kk : ℕ) (t : PyTable) (key : PyKey)
    (hT : ∀ p ∈ t, keyShapeOK kk p.1) (hkey : ¬ keyShapeOK kk key) :
    ddLookupD t key = [] := by
  induction t with
  | nil => rfl
  | cons q rest ih =>
      rcases q with ⟨k', c⟩
      simp only [ddLookupD]
      split_ifs with he
      · have hsh := hT (k', c) (List.mem_cons_self _ _)
        rw [he] at hsh
        exact absurd hsh hkey
      · refine ih ?_
        intro q hq
        exact hT q (List.mem_cons_of_mem _ hq)

theorem midTotals_zero (words : List (List PySym)) (context : List PySym) (n : ℕ)
    (h3 : 3 ≤ n) (h5 : n ≤ 5) (hc : context.length = n - 1) :
    ∀ k, 2 ≤ k → k < n →
      orderTotal (buildTabs words) (pyConditional context) k = 0 := by
  intro k h2 hkn
  have hcond : pyConditional context = PyKey.tup context := by
    unfold pyConditional
    rw [if_pos (by omega)]
  have hk4 : k ≤ 4 := by omega
  have hshape : ¬ keyShapeOK k (PyKey.tup context) := by
    interval_cases k <;> (simp [keyShapeOK]; try omega)
  have hzero : ∀ (tk : PyTable), (∀ p ∈ tk, keyShapeOK k p.1) →
      tableTotal tk (pyConditional context) = 0 := by
    intro tk htk
    unfold tableTotal
    rw [hcond, ddLookupD_nil_of_shape k tk (PyKey.tup context) htk hshape]
    rfl
  interval_cases k
  · exact hzero _ (get_ngram_counts_shape words 2 (by norm_num))
  · exact hzero _ (get_ngram_counts_shape words 3 (by norm_num))
  · exact hzero _ (get_ngram_counts_shape words 4 (by norm_num))

/-- C10: in a call with order `n ≥ 3` and an untruncated context of
length `n-1`, the one `conditional` key is used against every table of
order 2..n, so every intermediate order `k` (2 ≤ k < n) necessarily
finds a zero total in the built tables — its table is keyed by
length-(k-1) contexts (bare symbols for k = 2) — contributes nothing,
and cascades its weight; the accumulated probability is therefore just
the top-order term plus the unigram term, whose weight is `lambdas[1]`
plus all the intermediate weights (plus the top weight too when the top
order is also unseen). -/
theorem untruncated_context_top_and_unigram_only (words : List (List PySym))
    (letter : PySym) (context : List PySym) (n : ℕ) (lambdas : Lambdas)
    (h3 : 3 ≤ n) (h5 : n ≤ 5) (hc : context.length = n - 1)
    (ht : counterTotal (buildTabs words).t1 ≠ 0) :
    (∀ k, 2 ≤ k → k < n →
        orderTotal (buildTabs words) (pyConditional context) k = 0) ∧
      (get_ngram_prob_acc letter context n lambdas (buildTabs words)).1 =
        some ((if orderTotal (buildTabs words) (pyConditional context) n = 0 then 0
            else lamFun lambdas n *
              (orderCount (buildTabs words) (pyConditional context) letter n : ℚ) /
              (orderTotal (buildTabs words) (pyConditional context) n : ℚ)) +
          (counterGet (buildTabs words).t1 letter : ℚ) *
            (lambdas.l1 + (midWeightSum lambdas n +
              (if orderTotal (buildTabs words) (pyConditional context) n = 0
                then lamFun lambdas n else 0))) /
            (counterTotal (buildTabs words).t1 : ℚ)) := by
  have hmid := midTotals_zero words context n h3 h5 hc
  refine ⟨hmid, ?_⟩
  rw [(acc_cascade_core letter context n lambdas (buildTabs words) (by omega) h5 ht).1]
  have o3 : ordersDesc 3 = [3, 2] := by decide
  have o4 : ordersDesc 4 = [4, 3, 2] := by decide
  have o5 : ordersDesc 5 = [5, 4, 3, 2] := by decide
  have hm3 : midWeightSum lambdas 3 = lambdas.l2 + 0 := by
    simp [midWeightSum, (by decide : List.range 1 = [0]), lamFun]
  have hm4 : midWeightSum lambdas 4 = lambdas.l2 + (lambdas.l3 + 0) := by
    simp [midWeightSum, (by decide : List.range 2 = [0, 1]), lamFun]
  have hm5 : midWeightSum lambdas 5 = lambdas.l2 + (lambdas.l3 + (lambdas.l4 + 0)) := by
    simp [midWeightSum, (by decide : List.range 3 = [0, 1, 2]), lamFun]
  interval_cases n
  · have z2 := hmid 2 (by norm_num) (by norm_num)
    simp only [specCascade, o3, specCascadeAux, z2, ne_eq, not_true_eq_false, if_false,
      ite_false, not_false_iff, Option.some.injEq, hm3, lamFun]
    split_ifs <;> first | ring | (exfalso; omega)
  · have z2 := hmid 2 (by norm_num) (by norm_num)
    have z3 := hmid 3 (by norm_num) (by norm_num)
    simp only [specCascade, o4, specCascadeAux, z2, z3, ne_eq, not_true_eq_false, if_false,
      ite_false, not_false_iff, Option.some.injEq, hm4, lamFun]
    split_ifs <;> first | ring | (exfalso; omega)
  · have z2 := hmid 2 (by norm_num) (by norm_num)
    have z3 := hmid 3 (by norm_num) (by norm_num)
    have z4 := hmid 4 (by norm_num) (by norm_num)
    simp only [specCascade, o5, specCascadeAux, z2, z3, z4, ne_eq, not_true_eq_false,
      if_false, ite_false, not_false_iff, Option.some.injEq, hm5, lamFun]
    split_ifs <;> first | ring | (exfalso; omega)

theorem untruncated_context_top_and_unigram_only_witness :
    (3 ≤ 3 ∧ 3 ≤ 5 ∧ (["a", "b"] : List PySym).length = 3 - 1 ∧
        counterTotal (buildTabs demoWords).t1 ≠ 0) ∧
      (∀ k, 2 ≤ k → k < 3 →
          orderTotal (buildTabs demoWords) (pyConditional ["a", "b"]) k = 0) ∧
        (get_ngram_prob_acc "t" ["a", "b"] 3 demoLam3 (buildTabs demoWords)).1 =
          some ((if orderTotal (buildTabs demoWords) (pyConditional ["a", "b"]) 3 = 0 then 0
              else lamFun demoLam3 3 *
                (orderCount (buildTabs demoWords) (pyConditional ["a", "b"]) "t" 3 : ℚ) /
                (orderTotal (buildTabs demoWords) (pyConditional ["a", "b"]) 3 : ℚ)) +
            (counterGet (buildTabs demoWords).t1 "t" : ℚ) *
              (demoLam3.l1 + (midWeightSum demoLam3 3 +
                (if orderTotal (buildTabs demoWords) (pyConditional ["a", "b"]) 3 = 0
                  then lamFun demoLam3 3 else 0))) /
              (counterTotal (buildTabs demoWords).t1 : ℚ)) :=
  ⟨⟨by decide, by decide, by decide, by decide⟩,
    untruncated_context_top_and_unigram_only demoWords "t" ["a", "b"] 3 demoLam3
      (by decide) (by decide) (by decide) (by decide)⟩
